import Mathlib

/-!
# VoicePact: verification of the spec against the source

A shallow embedding of the core of the VoicePact server (contract lifecycle
quorum, SMS command handling, USSD sessions, payments, and the crypto/integrity
layer) in Lean 4, together with theorems settling the frozen claims about it.

Conventions used throughout:

* Machine bytes and words are `Nat` with explicit `% 2 ^ w` reductions.
* The wall clock (`datetime.utcnow()`) is passed in explicitly: operations that
  read the clock take a `Nat` instant or a `DT` timestamp parameter.  A single
  logical call is modelled with one frozen clock value.
* External library primitives that the repository merely calls (hashlib's
  SHA-256 and BLAKE2b, `hmac`, PBKDF2, base64, UTF-8 codecs) are implemented
  concretely below so every definition is executable.  The Ed25519 point
  arithmetic of the `cryptography` package is the one primitive left abstract:
  it enters `verify_signature` as an explicit function parameter standing for
  `public_key.verify` applied to a candidate message.
* Database rows become Lean structures; a SQLAlchemy "find and mutate the
  unique matching row" becomes an explicit first-match update on a list.
-/

namespace VoicePact

/-! ## Byte and word helpers -/

/-- Truncate to a 32-bit word. -/
def mask32 (x : Nat) : Nat := x % 4294967296

/-- Truncate to a 64-bit word. -/
def mask64 (x : Nat) : Nat := x % 18446744073709551616

/-- Right-rotate a 32-bit word by `n` places (arithmetic formulation). -/
def rotr32 (x n : Nat) : Nat := x / 2 ^ n + x % 2 ^ n * 2 ^ (32 - n)

/-- Right-rotate a 64-bit word by `n` places. -/
def rotr64 (x n : Nat) : Nat := x / 2 ^ n + x % 2 ^ n * 2 ^ (64 - n)

/-- Big-endian bytes of a 32-bit word. -/
def word32be (w : Nat) : List Nat :=
  [w / 16777216 % 256, w / 65536 % 256, w / 256 % 256, w % 256]

/-- Big-endian bytes of a 64-bit quantity. -/
def word64be (w : Nat) : List Nat :=
  [w / 72057594037927936 % 256, w / 281474976710656 % 256,
   w / 1099511627776 % 256, w / 4294967296 % 256,
   w / 16777216 % 256, w / 65536 % 256, w / 256 % 256, w % 256]

/-- Little-endian bytes of a 64-bit word. -/
def word64le (w : Nat) : List Nat :=
  [w % 256, w / 256 % 256, w / 65536 % 256, w / 16777216 % 256,
   w / 4294967296 % 256, w / 1099511627776 % 256,
   w / 281474976710656 % 256, w / 72057594037927936 % 256]

/-- Read a big-endian 32-bit word from four bytes. -/
def beWord32 (a b c d : Nat) : Nat := a * 16777216 + b * 65536 + c * 256 + d

/-- Read a little-endian 64-bit word from eight bytes. -/
def leWord64 (b0 b1 b2 b3 b4 b5 b6 b7 : Nat) : Nat :=
  b0 + b1 * 256 + b2 * 65536 + b3 * 16777216 + b4 * 4294967296 +
  b5 * 1099511627776 + b6 * 281474976710656 + b7 * 72057594037927936

/-- Split a byte list into chunks of `sz` bytes (structural via fuel). -/
def chunksAux (sz : Nat) : Nat → List Nat → List (List Nat)
  | 0, _ => []
  | _, [] => []
  | fuel + 1, l => l.take sz :: chunksAux sz fuel (l.drop sz)

/-- Split a byte list into chunks of `sz` bytes. -/
def chunks (sz : Nat) (l : List Nat) : List (List Nat) := chunksAux sz l.length l

/-- Bytewise xor of two equal-length byte strings. -/
def xorBytes (a b : List Nat) : List Nat := (a.zip b).map fun p => Nat.xor p.1 p.2

/-! ## SHA-256 (hashlib.sha256) -/

/-- The SHA-256 round constants. -/
def sha256K : List Nat :=
  [1116352408, 1899447441, 3049323471, 3921009573,
   961987163, 1508970993, 2453635748, 2870763221,
   3624381080, 310598401, 607225278, 1426881987,
   1925078388, 2162078206, 2614888103, 3248222580,
   3835390401, 4022224774, 264347078, 604807628,
   770255983, 1249150122, 1555081692, 1996064986,
   2554220882, 2821834349, 2952996808, 3210313671,
   3336571891, 3584528711, 113926993, 338241895,
   666307205, 773529912, 1294757372, 1396182291,
   1695183700, 1986661051, 2177026350, 2456956037,
   2730485921, 2820302411, 3259730800, 3345764771,
   3516065817, 3600352804, 4094571909, 275423344,
   430227734, 506948616, 659060556, 883997877,
   958139571, 1322822218, 1537002063, 1747873779,
   1955562222, 2024104815, 2227730452, 2361852424,
   2428436474, 2756734187, 3204031479, 3329325298]

/-- The SHA-256 initial hash value. -/
def sha256H0 : List Nat :=
  [1779033703, 3144134277, 1013904242, 2773480762,
   1359893119, 2600822924, 528734635, 1541459225]

/-- SHA-256 message padding: append `0x80`, zeros, and the 64-bit bit length. -/
def sha256Pad (msg : List Nat) : List Nat :=
  let padLen := (64 - (msg.length + 9) % 64) % 64
  msg ++ [128] ++ List.replicate padLen 0 ++ word64be (msg.length * 8)

/-- Parse a 64-byte block into sixteen big-endian 32-bit words. -/
def blockWords : List Nat → List Nat
  | a :: b :: c :: d :: rest => beWord32 a b c d :: blockWords rest
  | _ => []

/-- Extend sixteen message words to the 64-word SHA-256 schedule. -/
def sha256Schedule (w16 : List Nat) : Array Nat :=
  (List.range 48).foldl
    (fun ws i =>
      let j := i + 16
      let w15 := ws[j - 15]!
      let w2 := ws[j - 2]!
      let s0 := Nat.xor (Nat.xor (rotr32 w15 7) (rotr32 w15 18)) (w15 / 8)
      let s1 := Nat.xor (Nat.xor (rotr32 w2 17) (rotr32 w2 19)) (w2 / 1024)
      ws.push (mask32 (ws[j - 16]! + s0 + ws[j - 7]! + s1)))
    w16.toArray

/-- One SHA-256 round on the eight-word working state. -/
def sha256Round (st : List Nat) (kw : Nat × Nat) : List Nat :=
  match st with
  | [a, b, c, d, e, f, g, h] =>
    let s1 := Nat.xor (Nat.xor (rotr32 e 6) (rotr32 e 11)) (rotr32 e 25)
    let ch := Nat.xor (Nat.land e f) (Nat.land (4294967295 - e) g)
    let t1 := mask32 (h + s1 + ch + kw.1 + kw.2)
    let s0 := Nat.xor (Nat.xor (rotr32 a 2) (rotr32 a 13)) (rotr32 a 22)
    let mj := Nat.xor (Nat.xor (Nat.land a b) (Nat.land a c)) (Nat.land b c)
    let t2 := mask32 (s0 + mj)
    [mask32 (t1 + t2), a, b, c, mask32 (d + t1), e, f, g]
  | other => other

/-- SHA-256 compression of one 64-byte block into the chaining state. -/
def sha256Compress (h : List Nat) (block : List Nat) : List Nat :=
  let w := sha256Schedule (blockWords block)
  let v := (sha256K.zip w.toList).foldl sha256Round h
  (h.zip v).map fun p => mask32 (p.1 + p.2)

/-- SHA-256 of a byte string, as 32 bytes. -/
def sha256Bytes (msg : List Nat) : List Nat :=
  let final := (chunks 64 (sha256Pad msg)).foldl sha256Compress sha256H0
  (final.map word32be).flatten

/-! ## Hex encoding -/

/-- The lowercase hex digits. -/
def hexDigits : List Char := "0123456789abcdef".data

/-- One lowercase hex digit. -/
def hexChar (n : Nat) : Char := hexDigits.getD (n % 16) '0'

/-- Lowercase hex encoding of a byte string (hashlib's `hexdigest`). -/
def bytesToHex (bs : List Nat) : String :=
  String.mk (bs.flatMap fun b => [hexChar (b / 16), hexChar b])

/-- Numeric value of one hex digit (other characters read as 0). -/
def hexDigitVal (c : Char) : Nat :=
  if '0' ≤ c ∧ c ≤ '9' then c.toNat - 48
  else if 'a' ≤ c ∧ c ≤ 'f' then c.toNat - 87
  else if 'A' ≤ c ∧ c ≤ 'F' then c.toNat - 55
  else 0

/-- Base-16 reading of a hex digit string (Python's `int(s, 16)` on valid input). -/
def hexToNat (cs : List Char) : Nat := cs.foldl (fun acc c => acc * 16 + hexDigitVal c) 0

/-- SHA-256 hexdigest of a byte string. -/
def sha256Hex (msg : List Nat) : String := bytesToHex (sha256Bytes msg)

/-! ## UTF-8 (Python `str.encode` / `bytes.decode`) -/

/-- UTF-8 encoding of a single Unicode code point. -/
def utf8EncodeCp (c : Nat) : List Nat :=
  if c < 128 then [c]
  else if c < 2048 then [192 + c / 64, 128 + c % 64]
  else if c < 65536 then [224 + c / 4096, 128 + c / 64 % 64, 128 + c % 64]
  else [240 + c / 262144, 128 + c / 4096 % 64, 128 + c / 64 % 64, 128 + c % 64]

/-- UTF-8 bytes of a string (Python's `s.encode("utf-8")`). -/
def strBytes (s : String) : List Nat := s.data.flatMap fun c => utf8EncodeCp c.toNat

/-- Decode one UTF-8-encoded code point from the head of a byte list. -/
def utf8Decode1 : List Nat → Option (Nat × List Nat)
  | [] => none
  | b :: rest =>
    if b < 128 then some (b, rest)
    else if b < 192 then none
    else if b < 224 then
      match rest with
      | b1 :: r =>
        if 128 ≤ b1 ∧ b1 < 192 then some ((b - 192) * 64 + (b1 - 128), r) else none
      | _ => none
    else if b < 240 then
      match rest with
      | b1 :: b2 :: r =>
        if 128 ≤ b1 ∧ b1 < 192 ∧ 128 ≤ b2 ∧ b2 < 192 then
          some ((b - 224) * 4096 + (b1 - 128) * 64 + (b2 - 128), r)
        else none
      | _ => none
    else if b < 248 then
      match rest with
      | b1 :: b2 :: b3 :: r =>
        if 128 ≤ b1 ∧ b1 < 192 ∧ 128 ≤ b2 ∧ b2 < 192 ∧ 128 ≤ b3 ∧ b3 < 192 then
          some ((b - 240) * 262144 + (b1 - 128) * 4096 + (b2 - 128) * 64 + (b3 - 128), r)
        else none
      | _ => none
    else none

/-- Decode a UTF-8 byte list into code points (fuel-indexed, fuel ≥ length). -/
def utf8DecodeAux : Nat → List Nat → Option (List Nat)
  | _, [] => some []
  | 0, _ :: _ => none
  | fuel + 1, bs =>
    match utf8Decode1 bs with
    | none => none
    | some (c, rest) => (utf8DecodeAux fuel rest).map (c :: ·)

/-- Decode a UTF-8 byte list into code points (Python's `bytes.decode("utf-8")`,
simplified: overlong forms and surrogates are not rejected, which is irrelevant
for decoding output of the encoder above). -/
def utf8Decode (bs : List Nat) : Option (List Nat) := utf8DecodeAux bs.length bs

/-- Decode UTF-8 bytes to a string. -/
def utf8DecodeStr (bs : List Nat) : Option String :=
  (utf8Decode bs).map fun cps => String.mk (cps.map Char.ofNat)

/-! ## HMAC-SHA256 and PBKDF2 (Python `hmac`, `cryptography` PBKDF2HMAC) -/

/-- HMAC-SHA256 over byte strings. -/
def hmacSha256 (key msg : List Nat) : List Nat :=
  let k0 := if key.length > 64 then sha256Bytes key else key
  let kp := k0 ++ List.replicate (64 - k0.length) 0
  let inner := sha256Bytes (kp.map (Nat.xor 54) ++ msg)
  sha256Bytes (kp.map (Nat.xor 92) ++ inner)

/-- The iterated-xor chain of one PBKDF2 block: given `u`, xor together the
next `n` HMAC iterates starting from `u`. -/
def pbkdf2Iter (pw : List Nat) : Nat → List Nat → List Nat → List Nat
  | 0, _, acc => acc
  | n + 1, u, acc =>
    let u2 := hmacSha256 pw u
    pbkdf2Iter pw n u2 (xorBytes acc u2)

/-- One PBKDF2-HMAC-SHA256 output block. -/
def pbkdf2Block (pw salt : List Nat) (iterations blockIdx : Nat) : List Nat :=
  let u1 := hmacSha256 pw (salt ++ word32be blockIdx)
  pbkdf2Iter pw (iterations - 1) u1 u1

/-- PBKDF2-HMAC-SHA256 (the `PBKDF2HMAC(algorithm=SHA256, ...)` KDF). -/
def pbkdf2HmacSha256 (pw salt : List Nat) (iterations dklen : Nat) : List Nat :=
  (((List.range ((dklen + 31) / 32)).map fun i =>
    pbkdf2Block pw salt iterations (i + 1)).flatten).take dklen

/-! ## BLAKE2b (hashlib.blake2b, unkeyed) -/

/-- The BLAKE2b initialization vector (SHA-512 IV). -/
def blake2bIV : List Nat :=
  [7640891576956012808, 13503953896175478587,
   4354685564936845355, 11912009170470909681,
   5840696475078001361, 11170449401992604703,
   2270897969802886507, 6620516959819538809]

/-- The BLAKE2b message schedule permutations. -/
def blake2bSigma : List (List Nat) :=
  [List.range 16,
   [14, 10, 4, 8, 9, 15, 13, 6, 1, 12, 0, 2, 11, 7, 5, 3],
   [11, 8, 12, 0, 5, 2, 15, 13, 10, 14, 3, 6, 7, 1, 9, 4],
   [7, 9, 3, 1, 13, 12, 11, 14, 2, 6, 5, 10, 4, 0, 15, 8],
   [9, 0, 5, 7, 2, 4, 10, 15, 14, 1, 11, 12, 6, 8, 3, 13],
   [2, 12, 6, 10, 0, 11, 8, 3, 4, 13, 7, 5, 15, 14, 1, 9],
   [12, 5, 1, 15, 14, 13, 4, 10, 0, 7, 6, 3, 9, 2, 8, 11],
   [13, 11, 7, 14, 12, 1, 3, 9, 5, 0, 15, 4, 8, 6, 2, 10],
   [6, 15, 14, 9, 11, 3, 0, 8, 12, 2, 13, 7, 1, 4, 10, 5],
   [10, 2, 8, 4, 7, 6, 1, 5, 15, 11, 9, 14, 3, 12, 13, 0]]

/-- The BLAKE2b mixing function G on the 16-word working vector. -/
def blake2bG (v : Array Nat) (a b c d x y : Nat) : Array Nat :=
  let va := mask64 (v[a]! + v[b]! + x)
  let vd := rotr64 (Nat.xor v[d]! va) 32
  let vc := mask64 (v[c]! + vd)
  let vb := rotr64 (Nat.xor v[b]! vc) 24
  let va2 := mask64 (va + vb + y)
  let vd2 := rotr64 (Nat.xor vd va2) 16
  let vc2 := mask64 (vc + vd2)
  let vb2 := rotr64 (Nat.xor vb vc2) 63
  ((((v.set! a va2).set! b vb2).set! c vc2).set! d vd2)

/-- One BLAKE2b round with schedule row `s` and message words `m`. -/
def blake2bRound (m : List Nat) (v : Array Nat) (s : List Nat) : Array Nat :=
  let mw := fun i => m.getD (s.getD i 0) 0
  let v := blake2bG v 0 4 8 12 (mw 0) (mw 1)
  let v := blake2bG v 1 5 9 13 (mw 2) (mw 3)
  let v := blake2bG v 2 6 10 14 (mw 4) (mw 5)
  let v := blake2bG v 3 7 11 15 (mw 6) (mw 7)
  let v := blake2bG v 0 5 10 15 (mw 8) (mw 9)
  let v := blake2bG v 1 6 11 12 (mw 10) (mw 11)
  let v := blake2bG v 2 7 8 13 (mw 12) (mw 13)
  blake2bG v 3 4 9 14 (mw 14) (mw 15)

/-- Parse a 128-byte block into sixteen little-endian 64-bit words. -/
def blake2bWords : List Nat → List Nat
  | b0 :: b1 :: b2 :: b3 :: b4 :: b5 :: b6 :: b7 :: rest =>
    leWord64 b0 b1 b2 b3 b4 b5 b6 b7 :: blake2bWords rest
  | _ => []

/-- BLAKE2b compression of one 128-byte block. -/
def blake2bCompress (h : List Nat) (block : List Nat) (t : Nat) (last : Bool) : List Nat :=
  let m := blake2bWords block
  let v0 := (h ++ blake2bIV).toArray
  let v0 := v0.set! 12 (Nat.xor v0[12]! (mask64 t))
  let v0 := v0.set! 13 (Nat.xor v0[13]! (t / 18446744073709551616))
  let v0 := if last then v0.set! 14 (Nat.xor v0[14]! 18446744073709551615) else v0
  let v := (List.range 12).foldl (fun v i => blake2bRound m v (blake2bSigma.getD (i % 10) [])) v0
  (List.range 8).map fun i => Nat.xor (Nat.xor (h.getD i 0) v[i]!) v[i + 8]!

/-- Process BLAKE2b message blocks sequentially; the final block is padded with
zeros and compressed with the total length counter and the final flag. -/
def blake2bLoop (total : Nat) : List (List Nat) → List Nat → Nat → List Nat
  | [], h, _ => h
  | [b], h, _ => blake2bCompress h (b ++ List.replicate (128 - b.length) 0) total true
  | b :: bs, h, done => blake2bLoop total bs (blake2bCompress h b (done + 128) false) (done + 128)

/-- BLAKE2b of a byte string with the given digest size (unkeyed). -/
def blake2bBytes (digestSize : Nat) (msg : List Nat) : List Nat :=
  let h0 := match blake2bIV with
    | iv0 :: rest => Nat.xor iv0 (Nat.xor 16842752 digestSize) :: rest
    | [] => []
  let blocks := if msg.isEmpty then [[]] else chunks 128 msg
  ((blake2bLoop msg.length blocks h0 0).map word64le).flatten.take digestSize

/-- BLAKE2b hexdigest with the given digest size. -/
def blake2bHex (digestSize : Nat) (msg : List Nat) : String :=
  bytesToHex (blake2bBytes digestSize msg)

/-! ## Base64 (Python `base64.b64encode` / `b64decode`) -/

/-- The base64 alphabet. -/
def b64Alphabet : List Char :=
  "ABCDEFGHIJKLMNOPQRSTUVWXYZabcdefghijklmnopqrstuvwxyz0123456789+/".data

/-- The base64 character for a 6-bit value. -/
def b64Char (n : Nat) : Char := b64Alphabet.getD n 'A'

/-- The 6-bit value of a base64 character, if any. -/
def b64Val (c : Char) : Option Nat :=
  let i := b64Alphabet.indexOf c
  if i < 64 then some i else none

/-- Base64-encode a byte string (with `=` padding). -/
def b64enc : List Nat → List Char
  | [] => []
  | [a] => [b64Char (a / 4), b64Char (a % 4 * 16), '=', '=']
  | [a, b] => [b64Char (a / 4), b64Char (a % 4 * 16 + b / 16), b64Char (b % 16 * 4), '=']
  | a :: b :: c :: rest =>
    b64Char (a / 4) :: b64Char (a % 4 * 16 + b / 16) ::
    b64Char (b % 16 * 4 + c / 64) :: b64Char (c % 64) :: b64enc rest

/-- Base64-decode a character list (padding only allowed in the final group). -/
def b64dec : List Char → Option (List Nat)
  | [] => some []
  | c1 :: c2 :: c3 :: c4 :: rest =>
    match b64Val c1, b64Val c2 with
    | some v1, some v2 =>
      if rest.isEmpty then
        if c3 = '=' then
          if c4 = '=' then some [v1 * 4 + v2 / 16] else none
        else
          match b64Val c3 with
          | none => none
          | some v3 =>
            if c4 = '=' then some [v1 * 4 + v2 / 16, v2 % 16 * 16 + v3 / 4]
            else
              match b64Val c4 with
              | none => none
              | some v4 =>
                some [v1 * 4 + v2 / 16, v2 % 16 * 16 + v3 / 4, v3 % 4 * 64 + v4]
      else
        match b64Val c3, b64Val c4 with
        | some v3, some v4 =>
          (b64dec rest).map
            ([v1 * 4 + v2 / 16, v2 % 16 * 16 + v3 / 4, v3 % 4 * 64 + v4] ++ ·)
        | _, _ => none
    | _, _ => none
  | _ => none

/-! ## Python string operations

The handlers call Python's `str.upper`, `str.strip`, `str.startswith`,
`str.replace` and `str.lower`.  They are modelled at the character-list level
(ASCII case mapping, which covers every string the handlers construct). -/

/-- Python `str.upper` (ASCII range). -/
def pyUpper (s : String) : String := String.mk (s.data.map Char.toUpper)

/-- Python `str.lower` (ASCII range). -/
def pyLower (s : String) : String := String.mk (s.data.map Char.toLower)

/-- Python `str.strip`: drop leading and trailing whitespace. -/
def pyStrip (s : String) : String :=
  String.mk (((s.data.dropWhile Char.isWhitespace).reverse.dropWhile Char.isWhitespace).reverse)

/-- Whether `pat` is an initial segment of `s` (Python `str.startswith`). -/
def startsWithList : List Char → List Char → Bool
  | _, [] => true
  | [], _ :: _ => false
  | c :: cs, p :: ps => c == p && startsWithList cs ps

/-- Python `str.startswith` on strings. -/
def pyStartsWith (s pat : String) : Bool := startsWithList s.data pat.data

/-- Replace every non-overlapping occurrence of `pat` (nonempty), left to
right (fuel-indexed, fuel ≥ length of `s`). -/
def pyReplaceAux (pat repl : List Char) : Nat → List Char → List Char
  | 0, s => s
  | fuel + 1, s =>
    match s with
    | [] => []
    | c :: cs =>
      if startsWithList s pat then repl ++ pyReplaceAux pat repl fuel (s.drop pat.length)
      else c :: pyReplaceAux pat repl fuel cs

/-- Python `str.replace` for a nonempty pattern. -/
def pyReplace (s pat repl : String) : String :=
  if pat.data.isEmpty then s
  else String.mk (pyReplaceAux pat.data repl.data s.data.length s.data)

/-! ## Python values and `str(sorted(terms.items()))`

Contract terms are an insertion-ordered mapping; `terms.items()` is modelled as
an association list in insertion order.  Values cover the term payloads the
system stores (strings, integers, booleans, `None`).  `sorted` on the item
tuples compares the key component first; because mapping keys are distinct the
value component never takes part in the comparison, so the sort relation is
key comparison (Python string `<` is code-point lexicographic, as is Lean's). -/

inductive PyVal where
  | pstr (s : String)
  | pint (n : Int)
  | pbool (b : Bool)
  | pnone
deriving DecidableEq, Repr

/-- A single-quote character, for Python `repr` of strings. -/
def sq : String := String.singleton (Char.ofNat 39)

/-- Python `repr` of a term value (string `repr` simplified to single-quoting,
which matches Python on quote-free strings). -/
def pyRepr : PyVal → String
  | .pstr s => sq ++ s ++ sq
  | .pint n => toString n
  | .pbool b => if b then "True" else "False"
  | .pnone => "None"

/-- Python `repr` of one `(key, value)` item tuple. -/
def pyReprItem (kv : String × PyVal) : String :=
  "(" ++ sq ++ kv.1 ++ sq ++ ", " ++ pyRepr kv.2 ++ ")"

/-- The sort relation used by `sorted(terms.items())`: key comparison. -/
def itemsLe (p q : String × PyVal) : Prop := p.1 ≤ q.1

instance : DecidableRel itemsLe := fun p q => inferInstanceAs (Decidable (p.1 ≤ q.1))

instance : IsTotal (String × PyVal) itemsLe := ⟨fun p q => le_total p.1 q.1⟩

instance : IsTrans (String × PyVal) itemsLe := ⟨fun _ _ _ h1 h2 => le_trans h1 h2⟩

/-- `sorted(terms.items())` (a stable comparison sort). -/
def pySorted (items : List (String × PyVal)) : List (String × PyVal) :=
  items.insertionSort itemsLe

/-- Python `str` of a list of item tuples. -/
def pyStrItems (items : List (String × PyVal)) : String :=
  "[" ++ String.intercalate ", " (items.map pyReprItem) ++ "]"

/-! ## Timestamps

`datetime.utcnow()` values are modelled as explicit records; the system clock
enters every operation as a parameter.  Only the fields the handlers touch are
kept (`microsecond` is dropped: the code zeroes it wherever it formats
timestamps relevant to the claims, and `.date()` ignores it). -/

structure DT where
  year : Nat
  month : Nat
  day : Nat
  hour : Nat
  minute : Nat
  second : Nat
deriving DecidableEq, Repr

structure Date where
  year : Nat
  month : Nat
  day : Nat
deriving DecidableEq, Repr

/-- `datetime.date()`. -/
def DT.dateOf (t : DT) : Date := ⟨t.year, t.month, t.day⟩

/-- Zero-pad a decimal number to two digits (components are in range). -/
def pad2 (n : Nat) : String :=
  String.mk [Char.ofNat (48 + n / 10 % 10), Char.ofNat (48 + n % 10)]

/-- Zero-pad a decimal number to four digits. -/
def pad4 (n : Nat) : String :=
  String.mk [Char.ofNat (48 + n / 1000 % 10), Char.ofNat (48 + n / 100 % 10),
             Char.ofNat (48 + n / 10 % 10), Char.ofNat (48 + n % 10)]

/-- `date.isoformat()`: `YYYY-MM-DD`. -/
def Date.iso (d : Date) : String := pad4 d.year ++ "-" ++ pad2 d.month ++ "-" ++ pad2 d.day

/-- `datetime.isoformat()` with zero microseconds: `YYYY-MM-DDTHH:MM:SS`. -/
def DT.iso (t : DT) : String :=
  pad4 t.year ++ "-" ++ pad2 t.month ++ "-" ++ pad2 t.day ++ "T" ++
  pad2 t.hour ++ ":" ++ pad2 t.minute ++ ":" ++ pad2 t.second

/-! ## Contract lifecycle data model (`app/models/contract.py`)

One contract aggregate: its row together with its `ContractParty` phone
numbers and its `ContractSignature` rows.  The handlers under scrutiny always
scope their queries to a single `contract_id`, so the state carries one
aggregate; an incoming message referencing another id takes the
contract-not-found path. -/

inductive SigStatus where
  | pending | signed | rejected | expired
deriving DecidableEq, Repr

inductive CStatus where
  | pending | confirmed | active | completed | disputed | cancelled | expired
deriving DecidableEq, Repr

structure SigRow where
  signer_phone : String
  status : SigStatus
  signed_at : Option Nat
  signature_method : String
deriving DecidableEq, Repr

structure ContractSt where
  id : String
  status : CStatus
  confirmed_at : Option Nat
  completed_at : Option Nat
  parties : List String
  sigs : List SigRow
deriving DecidableEq, Repr

/-- `scalar_one_or_none` on signatures filtered by `(contract_id, signer_phone)`
(the table has a uniqueness constraint on that pair). -/
def findSig (sigs : List SigRow) (phone : String) : Option SigRow :=
  sigs.find? fun s => s.signer_phone == phone

/-- Mutate the first signature row matching `phone` in place. -/
def updateFirstSig : List SigRow → String → (SigRow → SigRow) → List SigRow
  | [], _, _ => []
  | s :: rest, phone, f =>
    if s.signer_phone == phone then f s :: rest
    else s :: updateFirstSig rest phone f

/-- `sum(1 for sig in all_signatures if sig.status == SignatureStatus.SIGNED)`. -/
def signedCount (sigs : List SigRow) : Nat :=
  sigs.countP fun s => s.status == SigStatus.signed

/-- The quorum test of `process_sms_confirmation`:
`signed_count == total_parties and total_parties > 0`. -/
def quorumHolds (sigs : List SigRow) : Bool :=
  signedCount sigs == sigs.length && sigs.length != 0

/-- The signature write of the confirm/reject branch of
`process_sms_confirmation` (`sms.py` lines 228-253): find the sender's
signature row, creating a fresh default row if absent, and write
`signed`/`rejected` into it. -/
def smsWriteSigs (sigs : List SigRow) (phone : String) (confirm : Bool) (now : Nat) :
    List SigRow :=
  match findSig sigs phone with
  | some _ =>
    updateFirstSig sigs phone fun s =>
      if confirm then { s with status := .signed, signed_at := some now }
      else { s with status := .rejected }
  | none =>
    let created : SigRow :=
      { signer_phone := phone, status := .pending, signed_at := none,
        signature_method := "sms_confirmation" }
    let written :=
      if confirm then { created with status := .signed, signed_at := some now }
      else { created with status := .rejected }
    sigs ++ [written]

/-- The confirm/reject branch of `process_sms_confirmation`
(`sms.py` lines 226-269): write the signature, then evaluate quorum and, when
it holds, set the contract `confirmed` with a fresh `confirmed_at`. -/
def smsRecordSignature (st : ContractSt) (phone : String) (confirm : Bool) (now : Nat) :
    ContractSt :=
  let sigs1 := smsWriteSigs st.sigs phone confirm now
  if quorumHolds sigs1 then
    { st with sigs := sigs1, status := .confirmed, confirmed_at := some now }
  else
    { st with sigs := sigs1 }

inductive SmsAction where
  | confirm | reject | accept_delivery | dispute
deriving DecidableEq, Repr

inductive SmsOutcome where
  | unknown_command | contract_not_found | processed (action : SmsAction)
deriving DecidableEq, Repr

/-- `process_sms_confirmation` (`sms.py` lines 190-287): normalize the inbound
message, parse one of the four command prefixes, look up the contract, and
dispatch the action.  `ACCEPT`/`DISPUTE` transition the contract directly. -/
def process_sms_confirmation (phone message : String) (now : Nat) (st : ContractSt) :
    ContractSt × SmsOutcome :=
  let msg := pyStrip (pyUpper message)
  let parsed : Option (String × SmsAction) :=
    if pyStartsWith msg "YES-" then some (pyReplace msg "YES-" "", .confirm)
    else if pyStartsWith msg "NO-" then some (pyReplace msg "NO-" "", .reject)
    else if pyStartsWith msg "ACCEPT-" then some (pyReplace msg "ACCEPT-" "", .accept_delivery)
    else if pyStartsWith msg "DISPUTE-" then some (pyReplace msg "DISPUTE-" "", .dispute)
    else none
  match parsed with
  | none => (st, .unknown_command)
  | some (cid, action) =>
    if cid == st.id then
      match action with
      | .confirm => (smsRecordSignature st phone true now, .processed .confirm)
      | .reject => (smsRecordSignature st phone false now, .processed .reject)
      | .accept_delivery =>
        ({ st with status := .completed, completed_at := some now }, .processed .accept_delivery)
      | .dispute => ({ st with status := .disputed }, .processed .dispute)
    else (st, .contract_not_found)

/-- The signature write of `confirm_contract` (`contracts.py` lines 308-310). -/
def apiWriteSigs (sigs : List SigRow) (phone : String) (now : Nat) : List SigRow :=
  updateFirstSig sigs phone fun s => { s with status := .signed, signed_at := some now }

/-- `confirm_contract` (`contracts.py` lines 286-342): 404 when no signature
row exists for the phone; otherwise mark it signed and evaluate quorum (this
endpoint has no `total > 0` guard).  The boolean reports whether a signature
row was found and written. -/
def confirm_contract (st : ContractSt) (phone : String) (now : Nat) : ContractSt × Bool :=
  match findSig st.sigs phone with
  | none => (st, false)
  | some _ =>
    let sigs1 := apiWriteSigs st.sigs phone now
    if signedCount sigs1 == sigs1.length then
      ({ st with sigs := sigs1, status := .confirmed, confirmed_at := some now }, true)
    else
      ({ st with sigs := sigs1 }, true)

/-- `ContractStatus(request.status)`: parse a status value string, `none` for
the `ValueError` case. -/
def parseStatus : String → Option CStatus
  | "pending" => some .pending
  | "confirmed" => some .confirmed
  | "active" => some .active
  | "completed" => some .completed
  | "disputed" => some .disputed
  | "cancelled" => some .cancelled
  | "expired" => some .expired
  | _ => none

/-- `update_contract` (`contracts.py` lines 249-283), status part: any valid
status value is assigned unconditionally; an invalid value raises before the
commit, surfacing as a 500 with the row unchanged. -/
def update_contract (st : ContractSt) (reqStatus : Option String) (now : Nat) :
    Except String ContractSt :=
  match reqStatus with
  | none => .ok st
  | some s =>
    match parseStatus s with
    | none => .error "Failed to update contract"
    | some c =>
      .ok { st with
        status := c,
        confirmed_at := if s == "confirmed" then some now else st.confirmed_at,
        completed_at := if s == "completed" then some now else st.completed_at }

/-! ### Signature-recording operation sequences (for the quorum law)

The signature-recording operations are the SMS `YES`/`NO` commands and the
`confirm_contract` endpoint.  `sms` ops drive the found-contract confirm/reject
branch; `api` ops drive `confirm_contract`. -/

inductive SigOp where
  | sms (phone : String) (confirm : Bool) (time : Nat)
  | api (phone : String) (time : Nat)
deriving DecidableEq, Repr

/-- One signature-recording step. -/
def sigStep (st : ContractSt) : SigOp → ContractSt
  | .sms phone c t => smsRecordSignature st phone c t
  | .api phone t => (confirm_contract st phone t).1

/-- Whether the operation actually writes a signature row (`confirm_contract`
404s without writing when no row matches). -/
def opWrites (st : ContractSt) : SigOp → Bool
  | .sms _ _ _ => true
  | .api phone _ => (findSig st.sigs phone).isSome

/-- Run a sequence of signature-recording operations. -/
def runOps (st : ContractSt) (ops : List SigOp) : ContractSt := ops.foldl sigStep st

/-- Whether, somewhere along the sequence, a signature write ends with every
recorded signature `signed` (and at least one row) — the quorum condition
evaluated right after that write. -/
def quorumEver : ContractSt → List SigOp → Bool
  | _, [] => false
  | st, op :: rest =>
    let st1 := sigStep st op
    (opWrites st op && quorumHolds st1.sigs) || quorumEver st1 rest

/-! ## USSD sessions (`ussd.py`) -/

structure USSDSessionRow where
  session_id : String
  phone_number : String
  current_menu : String
  ctx_contracts : List String
  ctx_selected : Option String
  last_input : Option String
  is_active : Bool
  created_at : Nat
  updated_at : Nat
  expires_at : Nat
deriving DecidableEq, Repr

/-- `get_or_create_session` (`ussd.py` lines 357-380): look the session up by
id and return it as-is when present — there is no check of `expires_at` or
`is_active`; only an unseen id creates a fresh `main` session. -/
def get_or_create_session (session_id phone : String) (now : Nat)
    (db : List USSDSessionRow) : USSDSessionRow :=
  match db.find? (fun s => s.session_id == session_id) with
  | some s => s
  | none =>
    { session_id := session_id, phone_number := phone, current_menu := "main",
      ctx_contracts := [], ctx_selected := none, last_input := none,
      is_active := true, created_at := now, updated_at := now, expires_at := now + 300 }

/-- The menu-selection step of `ussd_handler` (lines 34-44): an empty request
text renders the main menu; otherwise `handle_menu_navigation` dispatches on
the session's stored `current_menu`. -/
def ussdDispatchMenu (s : USSDSessionRow) (text : String) : String :=
  if text == "" then "main" else s.current_menu

/-! ## Payments (`payments.py`) -/

inductive PayStatus where
  | pending | locked | released | refunded | failed
deriving DecidableEq, Repr

structure PaymentRow where
  id : Nat
  contract_id : String
  payer_phone : String
  amount : Nat
  currency : String
  payment_type : String
  status : PayStatus
  external_transaction_id : Option String
  confirmed_at : Option Nat
  failure_reason : Option String
deriving DecidableEq, Repr

structure PayDB where
  contract_ids : List String
  payments : List PaymentRow
  nextId : Nat
deriving DecidableEq, Repr

/-- `mobile_checkout` (`payments.py` lines 36-93): validate the amount
(pydantic `gt=0`), require the contract, insert a `pending` payment, then
record the gateway transaction id when the gateway returns one.  The payment's
status is `pending` throughout. -/
def mobile_checkout (db : PayDB) (contract_id phone : String) (amount : Nat)
    (currency payment_type : String) (gatewayTx : Option String) :
    PayDB × Except String Nat :=
  if amount == 0 then (db, .error "validation: amount must be > 0")
  else if db.contract_ids.contains contract_id then
    let base : PaymentRow :=
      { id := db.nextId, contract_id := contract_id, payer_phone := phone,
        amount := amount, currency := currency, payment_type := payment_type,
        status := .pending, external_transaction_id := none,
        confirmed_at := none, failure_reason := none }
    let p := match gatewayTx with
      | some tid => { base with external_transaction_id := some tid }
      | none => base
    ({ db with payments := db.payments ++ [p], nextId := db.nextId + 1 }, .ok p.id)
  else (db, .error "Contract not found")

/-- Find the first payment by external transaction id. -/
def findPayment (ps : List PaymentRow) (tx : String) : Option PaymentRow :=
  ps.find? fun p => p.external_transaction_id == some tx

/-- Mutate the first payment row matching the transaction id. -/
def updateFirstPayment : List PaymentRow → String → (PaymentRow → PaymentRow) → List PaymentRow
  | [], _, _ => []
  | p :: rest, tx, f =>
    if p.external_transaction_id == some tx then f p :: rest
    else p :: updateFirstPayment rest tx f

/-- The status update a webhook applies to the matched payment
(`payments.py` lines 120-128). -/
def webhookApply (statusStr : String) (descr : Option String) (now : Nat)
    (p : PaymentRow) : PaymentRow :=
  if pyLower statusStr == "success" then
    { p with status := .locked, confirmed_at := some now }
  else
    { p with status := .failed, failure_reason := some (descr.getD "Payment failed") }

/-- `payment_webhook` (`payments.py` lines 96-136): no-op without a
transaction id or matching payment; otherwise `success` locks the payment and
anything else fails it. -/
def payment_webhook (db : PayDB) (txId : Option String) (statusStr : String)
    (descr : Option String) (now : Nat) : PayDB :=
  match txId with
  | none => db
  | some tx =>
    match findPayment db.payments tx with
    | none => db
    | some _ =>
      { db with payments := updateFirstPayment db.payments tx (webhookApply statusStr descr now) }

/-! ## Crypto service operations (`crypto_service.py`, `contract_generator.py`) -/

/-- `generate_contract_hash(transcript, terms)` (`contract_generator.py` lines
54-60; `contracts.py` lines 72-75 builds the same content string for
`crypto_service.generate_contract_hash`): hash
`f"{transcript}:{str(sorted(terms.items()))}"` with BLAKE2b (the configured
default, 64-byte digest here) or SHA-256. -/
def generate_contract_hash (alg : String) (transcript : String)
    (terms : List (String × PyVal)) : String :=
  let content := transcript ++ ":" ++ pyStrItems (pySorted terms)
  if alg == "blake2b" then blake2bHex 64 (strBytes content)
  else sha256Hex (strBytes content)

/-- The candidate message `verify_signature` builds for window `w`: the
current time with `minute=(minute // 10 - w) * 10`, `second=0`. -/
def candidateMsg (contract_data phone : String) (now : DT) (w : Nat) : String :=
  let m := ((Int.ofNat now.minute / 10 - Int.ofNat w) * 10).toNat
  let t : DT := { now with minute := m, second := 0 }
  contract_data ++ ":" ++ phone ++ ":" ++ DT.iso t

/-- The retry loop of `verify_signature` (`crypto_service.py` lines 86-94).
`verifyOk` stands for the external Ed25519 `public_key.verify` succeeding on a
candidate message (the key and signature bytes are fixed throughout the call).
A window whose computed minute is negative makes `datetime.replace` raise
`ValueError`, which escapes the loop to the outer handler: the function then
returns `False` without trying the remaining windows. -/
def verifyWindows (verifyOk : String → Bool) (contract_data phone : String) (now : DT) :
    List Nat → Bool
  | [] => false
  | w :: ws =>
    let m : Int := (Int.ofNat now.minute / 10 - Int.ofNat w) * 10
    if m < 0 ∨ 59 < m then false
    else if verifyOk (candidateMsg contract_data phone now w) then true
    else verifyWindows verifyOk contract_data phone now ws

/-- `verify_signature` (`crypto_service.py` lines 78-99), with the Ed25519
primitive abstracted as `verifyOk` and a frozen clock `now`. -/
def verify_signature (verifyOk : String → Bool) (contract_data phone : String)
    (now : DT) : Bool :=
  verifyWindows verifyOk contract_data phone now [0, 1, 2]

/-- One decimal digit character. -/
def digitChar (x : Nat) : Char := Char.ofNat (48 + x % 10)

/-- Python `f"{n:06d}"` for `n < 10 ^ 6` (the only range it is applied to,
guaranteed by the preceding `% 1000000`). -/
def format06 (n : Nat) : String :=
  String.mk [digitChar (n / 100000), digitChar (n / 10000), digitChar (n / 1000),
             digitChar (n / 100), digitChar (n / 10), digitChar n]

/-- `generate_sms_confirmation_code` (`crypto_service.py` lines 101-111):
SHA-256 of `f"{contract_id}:{phone_number}:{utcnow().date().isoformat()}"`,
first 8 hex digits as an integer, reduced mod 10^6, zero-padded to 6 digits. -/
def generate_sms_confirmation_code (contract_id phone_number : String) (now : DT) : String :=
  let content := contract_id ++ ":" ++ phone_number ++ ":" ++ (DT.dateOf now).iso
  let hexHash := sha256Hex (strBytes content)
  format06 (hexToNat (hexHash.data.take 8) % 1000000)

/-- `verify_sms_confirmation` (`crypto_service.py` lines 113-119). -/
def verify_sms_confirmation (contract_id phone_number code : String) (now : DT) : Bool :=
  code == generate_sms_confirmation_code contract_id phone_number now

/-- `generate_webhook_signature` (`crypto_service.py` lines 162-174):
`"sha256=" + HMAC-SHA256(webhook_secret, payload).hexdigest()`. -/
def generate_webhook_signature (secret payload : String) : String :=
  "sha256=" ++ bytesToHex (hmacSha256 (strBytes secret) (strBytes payload))

/-- `CryptoService.verify_webhook_signature` (`crypto_service.py` lines
176-182): constant-time equality with the recomputed signature. -/
def verify_webhook_signature_cs (secret payload signature : String) : Bool :=
  signature == generate_webhook_signature secret payload

/-- `AfricasTalkingClient.verify_webhook_signature`
(`africastalking_client.py` lines 119-129): falsy secret or signature fails
fast; otherwise constant-time compare against `f"sha256={expected}"`. -/
def verify_webhook_signature_at (secret payload signature : String) : Bool :=
  if secret == "" || signature == "" then false
  else signature == "sha256=" ++ bytesToHex (hmacSha256 (strBytes secret) (strBytes payload))

/-- `_xor_encrypt` (`crypto_service.py` lines 261-263): xor against the key
repeated to the data length. -/
def xorEncrypt (data key : List Nat) : List Nat :=
  let keyRepeated := ((List.replicate (data.length / key.length + 1) key).flatten).take data.length
  (data.zip keyRepeated).map fun p => Nat.xor p.1 p.2

/-- `encrypt_sensitive_data` (`crypto_service.py` lines 184-203).  The random
16-byte `secrets.token_bytes(16)` salt is an explicit parameter. -/
def encrypt_sensitive_data (masterKey : String) (salt : List Nat) (data context : String) :
    String :=
  let key := pbkdf2HmacSha256 (strBytes (masterKey ++ ":" ++ context)) salt 100000 32
  let encrypted := xorEncrypt (strBytes data) key
  String.mk (b64enc (salt ++ encrypted))

/-- `decrypt_sensitive_data` (`crypto_service.py` lines 205-225): base64
decode, split the 16-byte salt, re-derive the key, xor, UTF-8 decode.  A
failure anywhere raises `CryptographicError`, modelled as `none`. -/
def decrypt_sensitive_data (masterKey : String) (encrypted_data context : String) :
    Option String :=
  match b64dec encrypted_data.data with
  | none => none
  | some combined =>
    let salt := combined.take 16
    let encrypted := combined.drop 16
    let key := pbkdf2HmacSha256 (strBytes (masterKey ++ ":" ++ context)) salt 100000 32
    utf8DecodeStr (xorEncrypt encrypted key)

/-! ## Supporting lemmas: sorted items under permutation -/

/-- Strict key order on items. -/
def itemsLt (p q : String × PyVal) : Prop := p.1 < q.1

instance : IsAntisymm (String × PyVal) itemsLt :=
  ⟨fun _ _ h1 h2 => (lt_asymm h1 h2).elim⟩

theorem sorted_lt_of_sorted_le_nodup {l : List (String × PyVal)}
    (hs : l.Sorted itemsLe) (hnd : (l.map Prod.fst).Nodup) : l.Sorted itemsLt := by
  have hne : l.Pairwise fun p q : String × PyVal => p.1 ≠ q.1 := List.pairwise_map.mp hnd
  exact (List.Pairwise.and hs hne).imp fun h => lt_of_le_of_ne h.1 h.2

/-- Sorting by key is canonical: permuted items with duplicate-free keys sort
to the same list. -/
theorem pySorted_perm_eq {l₁ l₂ : List (String × PyVal)} (hp : l₁.Perm l₂)
    (hnd : (l₁.map Prod.fst).Nodup) : pySorted l₁ = pySorted l₂ := by
  have hnd₂ : (l₂.map Prod.fst).Nodup := ((hp.map Prod.fst).nodup_iff).mp hnd
  have hnds₁ : ((l₁.insertionSort itemsLe).map Prod.fst).Nodup :=
    (((List.perm_insertionSort itemsLe l₁).map Prod.fst).nodup_iff).mpr hnd
  have hnds₂ : ((l₂.insertionSort itemsLe).map Prod.fst).Nodup :=
    (((List.perm_insertionSort itemsLe l₂).map Prod.fst).nodup_iff).mpr hnd₂
  exact List.eq_of_perm_of_sorted
    ((List.perm_insertionSort itemsLe l₁).trans
      (hp.trans (List.perm_insertionSort itemsLe l₂).symm))
    (sorted_lt_of_sorted_le_nodup (List.sorted_insertionSort itemsLe l₁) hnds₁)
    (sorted_lt_of_sorted_le_nodup (List.sorted_insertionSort itemsLe l₂) hnds₂)

/-- C2: the contract hash is computed from the transcript joined with `":"` to
the string form of the key-sorted items, so it is invariant under any
permutation of the order in which the terms mapping's items were inserted. -/
theorem contract_hash_terms_order_invariant (alg transcript : String)
    (terms terms2 : List (String × PyVal)) (hperm : terms.Perm terms2)
    (hnd : (terms.map Prod.fst).Nodup) :
    generate_contract_hash alg transcript terms =
      generate_contract_hash alg transcript terms2 := by
  unfold generate_contract_hash
  rw [pySorted_perm_eq hperm hnd]

/-- Witness for C2 at a concrete permuted pair of term lists. -/
theorem contract_hash_terms_order_invariant_witness :
    ([("quantity", PyVal.pint 100), ("product", PyVal.pstr "Maize")].Perm
      [("product", PyVal.pstr "Maize"), ("quantity", PyVal.pint 100)])
    ∧ (([("quantity", PyVal.pint 100), ("product", PyVal.pstr "Maize")].map Prod.fst).Nodup)
    ∧ generate_contract_hash "blake2b" "sell maize"
        [("quantity", PyVal.pint 100), ("product", PyVal.pstr "Maize")] =
      generate_contract_hash "blake2b" "sell maize"
        [("product", PyVal.pstr "Maize"), ("quantity", PyVal.pint 100)] :=
  ⟨List.Perm.swap _ _ _, by decide,
   contract_hash_terms_order_invariant "blake2b" "sell maize" _ _
     (List.Perm.swap _ _ _) (by decide)⟩

/-! ## C8: the SMS confirmation code -/

theorem digitChar_isDigit (x : Nat) : (digitChar x).isDigit = true := by
  have key : ∀ r, r < 10 → (Char.ofNat (48 + r)).isDigit = true := by decide
  exact key (x % 10) (Nat.mod_lt _ (by omega))

theorem format06_all_digits (n : Nat) : ((format06 n).data.all Char.isDigit) = true := by
  unfold format06
  show (List.all _ _) = true
  simp only [String.data]
  simp only [List.all_cons, List.all_nil, Bool.and_true]
  simp only [digitChar_isDigit]
  simp

/-- C8: `generate_sms_confirmation_code` always returns a 6-digit numeric
string, and it is a deterministic function of the contract id, the phone
number and the calendar date: two invocations on the same date agree. -/
theorem sms_code_six_digits_and_deterministic :
    (∀ (cid ph : String) (now : DT),
      (generate_sms_confirmation_code cid ph now).length = 6
      ∧ ((generate_sms_confirmation_code cid ph now).data.all Char.isDigit) = true)
    ∧ (∀ (cid ph : String) (t1 t2 : DT), DT.dateOf t1 = DT.dateOf t2 →
        generate_sms_confirmation_code cid ph t1 =
          generate_sms_confirmation_code cid ph t2) := by
  constructor
  · intro cid ph now
    constructor
    · rfl
    · exact format06_all_digits _
  · intro cid ph t1 t2 h
    unfold generate_sms_confirmation_code
    rw [h]

/-- Witness for C8: two clock readings on the same calendar date. -/
theorem sms_code_six_digits_and_deterministic_witness :
    DT.dateOf ⟨2025, 1, 15, 9, 0, 0⟩ = DT.dateOf ⟨2025, 1, 15, 23, 59, 59⟩
    ∧ generate_sms_confirmation_code "AG-250115-AB12CD" "+254711000001" ⟨2025, 1, 15, 9, 0, 0⟩ =
      generate_sms_confirmation_code "AG-250115-AB12CD" "+254711000001" ⟨2025, 1, 15, 23, 59, 59⟩ :=
  ⟨rfl, sms_code_six_digits_and_deterministic.2 "AG-250115-AB12CD" "+254711000001" _ _ rfl⟩

/-! ## C9: the webhook signature round trip -/

/-- C9: `generate_webhook_signature` returns `"sha256="` followed by the
hex-encoded HMAC-SHA256 of the payload under the shared secret, and the
identical payload/signature pair verifies successfully in both verifiers
(given the configured secret, which is never empty). -/
theorem webhook_signature_roundtrip (secret payload : String) (h : secret ≠ "") :
    generate_webhook_signature secret payload =
      "sha256=" ++ bytesToHex (hmacSha256 (strBytes secret) (strBytes payload))
    ∧ verify_webhook_signature_cs secret payload (generate_webhook_signature secret payload) = true
    ∧ verify_webhook_signature_at secret payload (generate_webhook_signature secret payload) = true := by
  refine ⟨rfl, ?_, ?_⟩
  · simp [verify_webhook_signature_cs]
  · unfold verify_webhook_signature_at generate_webhook_signature
    have h1 : (secret == "") = false := beq_eq_false_iff_ne.mpr h
    have h2 : (("sha256=" ++ bytesToHex (hmacSha256 (strBytes secret) (strBytes payload))) == "")
        = false := by
      refine beq_eq_false_iff_ne.mpr fun hContra => ?_
      have hlen := congrArg String.length hContra
      have h7 : ("sha256=" : String).length = 7 := rfl
      rw [String.length_append, h7] at hlen
      have h0 : ("" : String).length = 0 := rfl
      rw [h0] at hlen
      omega
    simp [h1, h2]

/-- Witness for C9 at a concrete secret and payload. -/
theorem webhook_signature_roundtrip_witness :
    ("whsec_demo" : String) ≠ ""
    ∧ verify_webhook_signature_at "whsec_demo" "amount=100"
        (generate_webhook_signature "whsec_demo" "amount=100") = true :=
  ⟨by decide, (webhook_signature_roundtrip "whsec_demo" "amount=100" (by decide)).2.2⟩

/-! ## Supporting lemmas: the lifecycle step functions -/

theorem smsRecordSignature_sigs (st : ContractSt) (ph : String) (c : Bool) (t : Nat) :
    (smsRecordSignature st ph c t).sigs = smsWriteSigs st.sigs ph c t := by
  unfold smsRecordSignature
  dsimp only
  split <;> rfl

theorem smsRecordSignature_status (st : ContractSt) (ph : String) (c : Bool) (t : Nat) :
    (smsRecordSignature st ph c t).status =
      if quorumHolds (smsWriteSigs st.sigs ph c t) then CStatus.confirmed else st.status := by
  unfold smsRecordSignature
  dsimp only
  split <;> simp_all

theorem smsRecordSignature_confirmed_at (st : ContractSt) (ph : String) (c : Bool) (t : Nat) :
    (smsRecordSignature st ph c t).confirmed_at =
      if quorumHolds (smsWriteSigs st.sigs ph c t) then some t else st.confirmed_at := by
  unfold smsRecordSignature
  dsimp only
  split <;> simp_all

theorem updateFirstSig_length (sigs : List SigRow) (ph : String) (f : SigRow → SigRow) :
    (updateFirstSig sigs ph f).length = sigs.length := by
  induction sigs with
  | nil => rfl
  | cons s rest ih =>
    unfold updateFirstSig
    split <;> simp [ih]

theorem confirm_contract_not_found (st : ContractSt) (ph : String) (t : Nat)
    (h : findSig st.sigs ph = none) : confirm_contract st ph t = (st, false) := by
  unfold confirm_contract
  rw [h]

theorem confirm_contract_found_sigs (st : ContractSt) (ph : String) (t : Nat) (s : SigRow)
    (h : findSig st.sigs ph = some s) :
    ((confirm_contract st ph t).1).sigs = apiWriteSigs st.sigs ph t := by
  unfold confirm_contract
  rw [h]
  dsimp only
  split <;> rfl

theorem confirm_contract_found_status (st : ContractSt) (ph : String) (t : Nat) (s : SigRow)
    (h : findSig st.sigs ph = some s) :
    ((confirm_contract st ph t).1).status =
      if signedCount (apiWriteSigs st.sigs ph t) == (apiWriteSigs st.sigs ph t).length
      then CStatus.confirmed else st.status := by
  unfold confirm_contract
  rw [h]
  dsimp only
  split <;> simp_all

theorem confirm_contract_found_confirmed_at (st : ContractSt) (ph : String) (t : Nat) (s : SigRow)
    (h : findSig st.sigs ph = some s) :
    ((confirm_contract st ph t).1).confirmed_at =
      if signedCount (apiWriteSigs st.sigs ph t) == (apiWriteSigs st.sigs ph t).length
      then some t else st.confirmed_at := by
  unfold confirm_contract
  rw [h]
  dsimp only
  split <;> simp_all

/-! ## C4: status transitions are not checked -/

/-- C4 counterexample: from the terminal status `completed`, requesting
`"pending"` succeeds and changes the stored status — no transition is refused
and no `InvalidStateTransition` failure exists on this path. -/
theorem update_contract_illegal_transition_accepted :
    update_contract ⟨"AG-250115-AB12CD", .completed, some 1, some 2, [], []⟩
        (some "pending") 9 =
      Except.ok ⟨"AG-250115-AB12CD", .pending, some 1, some 2, [], []⟩
    ∧ CStatus.pending ≠ CStatus.completed := by
  exact ⟨rfl, by decide⟩

/-- C4 amended: `update_contract` performs no lifecycle check at all — every
parseable target status is assigned unconditionally from every current status
(with `confirmed_at`/`completed_at` stamped for those targets), and only an
unparseable status string fails (a 500, state unchanged). -/
theorem update_contract_unrestricted (st : ContractSt) (now : Nat) :
    (∀ s c, parseStatus s = some c →
      update_contract st (some s) now =
        .ok { st with
          status := c,
          confirmed_at := if s == "confirmed" then some now else st.confirmed_at,
          completed_at := if s == "completed" then some now else st.completed_at })
    ∧ (∀ s, parseStatus s = none →
        update_contract st (some s) now = .error "Failed to update contract")
    ∧ update_contract st none now = .ok st := by
  refine ⟨fun s c h => ?_, fun s h => ?_, rfl⟩
  · simp [update_contract, h]
  · simp [update_contract, h]

/-- Witness for C4 (amended) at a concrete parseable status. -/
theorem update_contract_unrestricted_witness :
    parseStatus "active" = some CStatus.active
    ∧ update_contract ⟨"C", .cancelled, none, none, [], []⟩ (some "active") 3 =
        .ok ⟨"C", .active, none, none, [], []⟩ :=
  ⟨rfl, by
    have h := (update_contract_unrestricted ⟨"C", .cancelled, none, none, [], []⟩ 3).1
      "active" CStatus.active rfl
    simpa using h⟩

/-! ## C5: expired USSD sessions are resumed, not reset -/

/-- A stored session whose `expires_at` (100) has long passed. -/
def staleSession : USSDSessionRow :=
  { session_id := "ATUid_42", phone_number := "+254711000001",
    current_menu := "contracts", ctx_contracts := ["AG-250115-AB12CD"],
    ctx_selected := none, last_input := some "1", is_active := true,
    created_at := 50, updated_at := 90, expires_at := 100 }

/-- C5: a request at time 1000 against the expired session with the same id is
handed the stored row unchanged — `get_or_create_session` never consults
`expires_at` — and menu dispatch resumes the stale `contracts` menu with its
stale context instead of resetting to `main`. -/
theorem stale_ussd_session_resumed_not_reset :
    staleSession.expires_at < 1000
    ∧ get_or_create_session "ATUid_42" "+254711000001" 1000 [staleSession] = staleSession
    ∧ ussdDispatchMenu
        (get_or_create_session "ATUid_42" "+254711000001" 1000 [staleSession]) "1" = "contracts"
    ∧ (get_or_create_session "ATUid_42" "+254711000001" 1000 [staleSession]).ctx_contracts =
        ["AG-250115-AB12CD"]
    ∧ "contracts" ≠ "main" := by
  refine ⟨by decide, rfl, rfl, rfl, by decide⟩

/-! ## C3: confirmations from unknown numbers insert signature rows -/

/-- A pending two-party contract whose signature rows cover exactly the two
enrolled parties. -/
def phantomDemoState : ContractSt :=
  { id := "AG-250115-AB12CD", status := .pending, confirmed_at := none,
    completed_at := none,
    parties := ["+254711000001", "+254711000002"],
    sigs := [⟨"+254711000001", .pending, none, "sms_confirmation"⟩,
             ⟨"+254711000002", .pending, none, "sms_confirmation"⟩] }

/-- C3 counterexample: a `YES-<id>` confirmation from `+254700999999`, a number
recorded as no Party of the contract, is processed and inserts a brand-new
signed Signature row — a phantom signature. -/
theorem sms_phantom_signature_created :
    (process_sms_confirmation "+254700999999" "YES-AG-250115-AB12CD" 7 phantomDemoState).2 =
      SmsOutcome.processed .confirm
    ∧ phantomDemoState.parties.contains "+254700999999" = false
    ∧ ((process_sms_confirmation "+254700999999" "YES-AG-250115-AB12CD" 7 phantomDemoState).1).sigs =
        phantomDemoState.sigs ++ [⟨"+254700999999", .signed, some 7, "sms_confirmation"⟩] := by
  refine ⟨by decide, by decide, by decide⟩

/-- C3 amended: when the sender has no signature row, the confirm/reject
handler inserts a fresh row keyed only on the phone number — the Party table
is never consulted: the handler's result is independent of the `parties`
component of the state. -/
theorem sms_confirmation_inserts_signature_ignoring_parties
    (st : ContractSt) (phone : String) (c : Bool) (t : Nat) :
    (findSig st.sigs phone = none →
      (smsRecordSignature st phone c t).sigs =
        st.sigs ++ [{ signer_phone := phone,
                      status := if c then SigStatus.signed else SigStatus.rejected,
                      signed_at := if c then some t else none,
                      signature_method := "sms_confirmation" }])
    ∧ ∀ ps, smsRecordSignature { st with parties := ps } phone c t =
        { smsRecordSignature st phone c t with parties := ps } := by
  constructor
  · intro h
    have hsigs : smsWriteSigs st.sigs phone c t =
        st.sigs ++ [{ signer_phone := phone,
                      status := if c then SigStatus.signed else SigStatus.rejected,
                      signed_at := if c then some t else none,
                      signature_method := "sms_confirmation" }] := by
      unfold smsWriteSigs
      rw [h]
      cases c <;> rfl
    rw [smsRecordSignature_sigs, hsigs]
  · intro ps
    cases st
    unfold smsRecordSignature
    dsimp only
    split <;> rfl

/-- Witness for C3 (amended) at a concrete state and unknown phone. -/
theorem sms_confirmation_inserts_signature_ignoring_parties_witness :
    findSig phantomDemoState.sigs "+254700999999" = none
    ∧ (smsRecordSignature phantomDemoState "+254700999999" true 7).sigs =
        phantomDemoState.sigs ++ [{ signer_phone := "+254700999999",
                                    status := SigStatus.signed,
                                    signed_at := some 7,
                                    signature_method := "sms_confirmation" }] := by
  refine ⟨by decide, ?_⟩
  have h := (sms_confirmation_inserts_signature_ignoring_parties
    phantomDemoState "+254700999999" true 7).1 (by decide)
  simpa using h

/-! ## C1: the quorum confirmation law -/

theorem findSig_some_ne_nil {sigs : List SigRow} {ph : String} {s : SigRow}
    (h : findSig sigs ph = some s) : sigs ≠ [] := by
  intro hnil
  rw [hnil] at h
  simp [findSig] at h

theorem sigStep_of_not_writes (st : ContractSt) (op : SigOp)
    (hw : opWrites st op = false) : sigStep st op = st := by
  cases op with
  | sms ph c t => simp [opWrites] at hw
  | api ph t =>
    simp only [opWrites] at hw
    have hnone : findSig st.sigs ph = none := by
      rcases hfind : findSig st.sigs ph with _ | s
      · rfl
      · rw [hfind] at hw
        simp at hw
    simp [sigStep, confirm_contract_not_found st ph t hnone]

theorem sigStep_status_eq_or (st : ContractSt) (op : SigOp) :
    (sigStep st op).status = CStatus.confirmed ∨ (sigStep st op).status = st.status := by
  cases op with
  | sms ph c t =>
    rw [show sigStep st (.sms ph c t) = smsRecordSignature st ph c t from rfl,
      smsRecordSignature_status]
    split
    · exact Or.inl rfl
    · exact Or.inr rfl
  | api ph t =>
    rcases hfind : findSig st.sigs ph with _ | s
    · rw [show sigStep st (.api ph t) = (confirm_contract st ph t).1 from rfl,
        confirm_contract_not_found st ph t hfind]
      exact Or.inr rfl
    · rw [show sigStep st (.api ph t) = (confirm_contract st ph t).1 from rfl,
        confirm_contract_found_status st ph t s hfind]
      split
      · exact Or.inl rfl
      · exact Or.inr rfl

theorem sigStep_confirmed_absorb (st : ContractSt) (op : SigOp)
    (h : st.status = CStatus.confirmed) : (sigStep st op).status = CStatus.confirmed := by
  rcases sigStep_status_eq_or st op with hc | hs
  · exact hc
  · rw [hs, h]

theorem runOps_confirmed_absorb (ops : List SigOp) (st : ContractSt)
    (h : st.status = CStatus.confirmed) : (runOps st ops).status = CStatus.confirmed := by
  induction ops generalizing st with
  | nil => exact h
  | cons op rest ih => exact ih (sigStep st op) (sigStep_confirmed_absorb st op h)

theorem quorumHolds_of_ne_nil {sigs : List SigRow} (h : sigs.length ≠ 0) :
    quorumHolds sigs = (signedCount sigs == sigs.length) := by
  unfold quorumHolds
  have : (sigs.length != 0) = true := by simpa using h
  rw [this, Bool.and_true]

/-- After a step that actually writes a signature on a pending contract, the
status is `confirmed` exactly when the step's quorum test holds on the
written signature rows. -/
theorem sigStep_pending_confirmed_iff (st : ContractSt) (op : SigOp)
    (h₀ : st.status = CStatus.pending) (hw : opWrites st op = true) :
    ((sigStep st op).status = CStatus.confirmed ↔ quorumHolds (sigStep st op).sigs = true) := by
  cases op with
  | sms ph c t =>
    rw [show sigStep st (.sms ph c t) = smsRecordSignature st ph c t from rfl,
      smsRecordSignature_status, smsRecordSignature_sigs]
    split
    · simp_all
    · rw [h₀]
      simp_all
  | api ph t =>
    simp only [opWrites, Option.isSome_iff_exists] at hw
    obtain ⟨s, hs⟩ := hw
    rw [show sigStep st (.api ph t) = (confirm_contract st ph t).1 from rfl,
      confirm_contract_found_status st ph t s hs, confirm_contract_found_sigs st ph t s hs]
    have hlen : (apiWriteSigs st.sigs ph t).length ≠ 0 := by
      unfold apiWriteSigs
      rw [updateFirstSig_length]
      have := findSig_some_ne_nil hs
      simpa [List.length_eq_zero] using this
    rw [quorumHolds_of_ne_nil hlen]
    split
    · simp_all
    · rw [h₀]
      simp_all

theorem quorum_iff_aux (ops : List SigOp) (st₀ : ContractSt)
    (h₀ : st₀.status = CStatus.pending) :
    ((runOps st₀ ops).status = CStatus.confirmed ↔ quorumEver st₀ ops = true) := by
  induction ops generalizing st₀ with
  | nil =>
    rw [show runOps st₀ [] = st₀ from rfl, h₀]
    simp [quorumEver]
  | cons op rest ih =>
    rw [show runOps st₀ (op :: rest) = runOps (sigStep st₀ op) rest from rfl,
      show quorumEver st₀ (op :: rest) =
        ((opWrites st₀ op && quorumHolds (sigStep st₀ op).sigs) || quorumEver (sigStep st₀ op) rest)
        from rfl]
    by_cases hw : opWrites st₀ op = true
    · by_cases hq : quorumHolds (sigStep st₀ op).sigs = true
      · have hc := (sigStep_pending_confirmed_iff st₀ op h₀ hw).mpr hq
        simp [hw, hq, runOps_confirmed_absorb rest _ hc]
      · have hnc : (sigStep st₀ op).status ≠ CStatus.confirmed := fun hcon =>
          hq ((sigStep_pending_confirmed_iff st₀ op h₀ hw).mp hcon)
        have hpend : (sigStep st₀ op).status = CStatus.pending := by
          rcases sigStep_status_eq_or st₀ op with hcc | hss
          · exact absurd hcc hnc
          · rw [hss, h₀]
        have hqf : quorumHolds (sigStep st₀ op).sigs = false := by
          simpa using hq
        rw [hw, hqf]
        simp only [Bool.and_false, Bool.false_or]
        exact ih _ hpend
    · have hw' : opWrites st₀ op = false := by simpa using hw
      have hstep : sigStep st₀ op = st₀ := sigStep_of_not_writes st₀ op hw'
      rw [hstep, hw']
      simp only [Bool.false_and, Bool.false_or]
      exact ih st₀ h₀

/-- A contract already confirmed at time 100, with both signatures signed. -/
def confirmedDemoState : ContractSt :=
  { id := "AG-250115-AB12CD", status := .confirmed, confirmed_at := some 100,
    completed_at := none, parties := ["+254711000001", "+254711000002"],
    sigs := [⟨"+254711000001", .signed, some 90, "sms_confirmation"⟩,
             ⟨"+254711000002", .signed, some 100, "sms_confirmation"⟩] }

/-- C1 counterexample: re-evaluating quorum on an already-confirmed contract
is not a side-effect-free no-op — a repeated `YES` at time 200 leaves the
status at `confirmed` but overwrites `confirmed_at` (and the signer's
`signed_at`) with the new clock reading, changing the stored state. -/
theorem quorum_reevaluation_has_side_effect :
    confirmedDemoState.status = CStatus.confirmed
    ∧ quorumHolds confirmedDemoState.sigs = true
    ∧ (smsRecordSignature confirmedDemoState "+254711000001" true 200).status = CStatus.confirmed
    ∧ confirmedDemoState.confirmed_at = some 100
    ∧ (smsRecordSignature confirmedDemoState "+254711000001" true 200).confirmed_at = some 200
    ∧ smsRecordSignature confirmedDemoState "+254711000001" true 200 ≠ confirmedDemoState := by
  decide

/-- C1 (amended): over every sequence of signature-recording operations (SMS
`YES`/`NO` and the confirm endpoint) starting from a `pending` contract, the
status reaches `confirmed` exactly when, right after some signature write, the
count of `signed` rows equals the total row count `N` with `N > 0` — quorum is
evaluated after each write.  Re-evaluation on an already-confirmed contract
never changes the status (no duplicate transition), but it is not free of side
effects: whenever the quorum test passes again, `confirmed_at` is overwritten
with the current time. -/
theorem contract_confirmed_iff_quorum (st₀ : ContractSt)
    (h₀ : st₀.status = CStatus.pending) (ops : List SigOp) :
    ((runOps st₀ ops).status = CStatus.confirmed ↔ quorumEver st₀ ops = true)
    ∧ (∀ (st : ContractSt) (op : SigOp), st.status = CStatus.confirmed →
        (sigStep st op).status = CStatus.confirmed)
    ∧ (∀ (st : ContractSt) (ph : String) (t : Nat),
        quorumHolds (smsWriteSigs st.sigs ph true t) = true →
          (smsRecordSignature st ph true t).status = CStatus.confirmed
          ∧ (smsRecordSignature st ph true t).confirmed_at = some t) :=
  ⟨quorum_iff_aux ops st₀ h₀,
   fun st op h => sigStep_confirmed_absorb st op h,
   fun st ph t hq =>
     ⟨by rw [smsRecordSignature_status, hq, if_pos rfl],
      by rw [smsRecordSignature_confirmed_at, hq, if_pos rfl]⟩⟩

/-- Witness for C1 (amended): a concrete pending two-party contract confirmed
by two `YES` writes. -/
theorem contract_confirmed_iff_quorum_witness :
    (⟨"AG-1", CStatus.pending, none, none, ["+254711000001", "+254711000002"],
      [⟨"+254711000001", .pending, none, "sms_confirmation"⟩,
       ⟨"+254711000002", .pending, none, "sms_confirmation"⟩]⟩ : ContractSt).status =
        CStatus.pending
    ∧ ((runOps
          ⟨"AG-1", CStatus.pending, none, none, ["+254711000001", "+254711000002"],
            [⟨"+254711000001", .pending, none, "sms_confirmation"⟩,
             ⟨"+254711000002", .pending, none, "sms_confirmation"⟩]⟩
          [SigOp.sms "+254711000001" true 1, SigOp.sms "+254711000002" true 2]).status =
        CStatus.confirmed ↔
      quorumEver
          ⟨"AG-1", CStatus.pending, none, none, ["+254711000001", "+254711000002"],
            [⟨"+254711000001", .pending, none, "sms_confirmation"⟩,
             ⟨"+254711000002", .pending, none, "sms_confirmation"⟩]⟩
          [SigOp.sms "+254711000001" true 1, SigOp.sms "+254711000002" true 2] = true) :=
  ⟨rfl, (contract_confirmed_iff_quorum _ rfl _).1⟩

/-! ## C6: the signature-verification retry window -/

/-- The claim's reading of the candidate set, stated from the spec's words for
comparison with the source: "3 candidate 10-minute-aligned buckets going
backward from the current time" — the current time floored to a 10-minute
boundary, minus `w` further 10-minute steps, rolling across the hour boundary
(day rollover is out of scope for the comparison). -/
def specBucketTime (now : DT) (w : Nat) : DT :=
  let total := now.hour * 60 + now.minute
  let aligned := total / 10 * 10 - w * 10
  { now with hour := aligned / 60, minute := aligned % 60, second := 0 }

/-- The spec reading of `verify_signature`: try all three backward buckets. -/
def verify_signature_specWindows (verifyOk : String → Bool) (contract_data phone : String)
    (now : DT) : Bool :=
  [0, 1, 2].any fun w =>
    verifyOk (contract_data ++ ":" ++ phone ++ ":" ++ DT.iso (specBucketTime now w))

/-- C6 counterexample: at 12:05:30 the previous-hour bucket 11:50 is among the
claim's three backward candidates, but the source computes
`minute=(0-1)*10=-10` for the second window, `datetime.replace` raises, and
`verify_signature` returns `False` — a signature that the claimed three-bucket
check accepts is rejected by the code. -/
theorem verify_signature_window_counterexample :
    verify_signature
        (fun m => m == "CD:+254711000001:2025-01-15T11:50:00")
        "CD" "+254711000001" ⟨2025, 1, 15, 12, 5, 30⟩ = false
    ∧ verify_signature_specWindows
        (fun m => m == "CD:+254711000001:2025-01-15T11:50:00")
        "CD" "+254711000001" ⟨2025, 1, 15, 12, 5, 30⟩ = true := by
  exact ⟨by decide, by decide⟩

theorem verifyWindows_cons (verifyOk : String → Bool) (cd ph : String) (now : DT)
    (hmin : now.minute ≤ 59) (w : Nat) (ws : List Nat) :
    verifyWindows verifyOk cd ph now (w :: ws) =
      if w ≤ now.minute / 10 then
        (if verifyOk (candidateMsg cd ph now w) then true
         else verifyWindows verifyOk cd ph now ws)
      else false := by
  show (let m : Int := (Int.ofNat now.minute / 10 - Int.ofNat w) * 10
    if m < 0 ∨ 59 < m then false
    else if verifyOk (candidateMsg cd ph now w) then true
    else verifyWindows verifyOk cd ph now ws) = _
  dsimp only
  by_cases hwq : w ≤ now.minute / 10
  · have hm : ¬((Int.ofNat now.minute / 10 - Int.ofNat w) * 10 < 0
        ∨ 59 < (Int.ofNat now.minute / 10 - Int.ofNat w) * 10) := by
      simp only [Int.ofNat_eq_coe]
      omega
    rw [if_neg hm, if_pos hwq]
  · have hm : (Int.ofNat now.minute / 10 - Int.ofNat w) * 10 < 0 := by
      simp only [Int.ofNat_eq_coe]
      omega
    rw [if_pos (Or.inl hm), if_neg hwq]

/-- C6 (amended): `verify_signature` succeeds exactly when the Ed25519
verification succeeds on a candidate message for some window `w ≤ 2` whose
bucket stays inside the current hour (`w ≤ minute / 10`); buckets that would
cross into the previous hour are never tried (the `datetime.replace` raises
and the call returns false), so near the start of an hour fewer than three
candidates are checked — and it returns false otherwise. -/
theorem verify_signature_window_set (verifyOk : String → Bool) (cd ph : String)
    (now : DT) (hmin : now.minute ≤ 59) :
    (verify_signature verifyOk cd ph now = true ↔
      ∃ w, w ≤ 2 ∧ w ≤ now.minute / 10 ∧ verifyOk (candidateMsg cd ph now w) = true) := by
  unfold verify_signature
  rw [verifyWindows_cons verifyOk cd ph now hmin,
    verifyWindows_cons verifyOk cd ph now hmin,
    verifyWindows_cons verifyOk cd ph now hmin]
  rw [if_pos (Nat.zero_le _)]
  show (if verifyOk (candidateMsg cd ph now 0) then true else _) = true ↔ _
  by_cases h1 : 1 ≤ now.minute / 10
  · rw [if_pos h1]
    by_cases h2 : 2 ≤ now.minute / 10
    · rw [if_pos h2]
      show (if _ then _ else if _ then _ else if _ then _ else verifyWindows _ _ _ _ []) = _ ↔ _
      constructor
      · intro h
        rcases hv0 : verifyOk (candidateMsg cd ph now 0) with _ | _
        · rw [hv0, if_neg (by simp)] at h
          rcases hv1 : verifyOk (candidateMsg cd ph now 1) with _ | _
          · rw [hv1, if_neg (by simp)] at h
            rcases hv2 : verifyOk (candidateMsg cd ph now 2) with _ | _
            · rw [hv2, if_neg (by simp)] at h
              exact absurd h (by simp [verifyWindows])
            · exact ⟨2, by omega, h2, hv2⟩
          · exact ⟨1, by omega, h1, hv1⟩
        · exact ⟨0, by omega, Nat.zero_le _, hv0⟩
      · rintro ⟨w, hw2, hwq, hv⟩
        interval_cases w <;> simp [hv]
    · rw [if_neg h2]
      constructor
      · intro h
        rcases hv0 : verifyOk (candidateMsg cd ph now 0) with _ | _
        · rw [hv0, if_neg (by simp)] at h
          rcases hv1 : verifyOk (candidateMsg cd ph now 1) with _ | _
          · rw [hv1, if_neg (by simp)] at h
            exact absurd h (by simp)
          · exact ⟨1, by omega, h1, hv1⟩
        · exact ⟨0, by omega, Nat.zero_le _, hv0⟩
      · rintro ⟨w, hw2, hwq, hv⟩
        have hw : w ≤ 1 := by omega
        interval_cases w <;> simp [hv]
  · rw [if_neg h1]
    constructor
    · intro h
      rcases hv0 : verifyOk (candidateMsg cd ph now 0) with _ | _
      · rw [hv0, if_neg (by simp)] at h
        exact absurd h (by simp)
      · exact ⟨0, by omega, Nat.zero_le _, hv0⟩
    · rintro ⟨w, hw2, hwq, hv⟩
      have hw : w = 0 := by omega
      subst hw
      simp [hv]

/-- Witness for C6 (amended) at 12:25:30: window 1's bucket 12:10 verifies. -/
theorem verify_signature_window_set_witness :
    (⟨2025, 1, 15, 12, 25, 30⟩ : DT).minute ≤ 59
    ∧ (verify_signature (fun m => m == "CD:+2547:2025-01-15T12:10:00") "CD" "+2547"
        ⟨2025, 1, 15, 12, 25, 30⟩ = true ↔
      ∃ w, w ≤ 2 ∧ w ≤ (⟨2025, 1, 15, 12, 25, 30⟩ : DT).minute / 10
        ∧ (fun m => m == "CD:+2547:2025-01-15T12:10:00")
            (candidateMsg "CD" "+2547" ⟨2025, 1, 15, 12, 25, 30⟩ w) = true) :=
  ⟨by decide,
   verify_signature_window_set (fun m => m == "CD:+2547:2025-01-15T12:10:00") "CD" "+2547"
     ⟨2025, 1, 15, 12, 25, 30⟩ (by decide)⟩

/-! ## C7: payment state changes flow through the webhook only -/

/-- C7: `mobile_checkout` either leaves the payments untouched (validation or
lookup failure) or appends exactly one new `pending` payment, never touching
existing rows; `payment_webhook` is a no-op without a transaction id or a
matching payment, and otherwise rewrites only the first matching payment —
`success` makes it `locked` with `confirmed_at` set, anything else makes it
`failed` with a `failure_reason`.  No other operation in the payments API
mutates a payment's status. -/
theorem payment_lifecycle_via_webhook_only :
    (∀ (db : PayDB) (cid ph : String) (amt : Nat) (cur pt : String) (gw : Option String),
      (mobile_checkout db cid ph amt cur pt gw).1.payments = db.payments
      ∨ ∃ p, (mobile_checkout db cid ph amt cur pt gw).1.payments = db.payments ++ [p]
          ∧ p.status = PayStatus.pending)
    ∧ (∀ (db : PayDB) (s : String) (d : Option String) (now : Nat),
        payment_webhook db none s d now = db)
    ∧ (∀ (db : PayDB) (tx s : String) (d : Option String) (now : Nat),
        findPayment db.payments tx = none → payment_webhook db (some tx) s d now = db)
    ∧ (∀ (s : String) (d : Option String) (now : Nat) (p : PaymentRow),
        (pyLower s = "success" →
          (webhookApply s d now p).status = PayStatus.locked
          ∧ (webhookApply s d now p).confirmed_at = some now)
        ∧ (pyLower s ≠ "success" →
          (webhookApply s d now p).status = PayStatus.failed
          ∧ (webhookApply s d now p).failure_reason = some (d.getD "Payment failed")))
    ∧ (∀ (db : PayDB) (tx s : String) (d : Option String) (now : Nat) (q : PaymentRow),
        findPayment db.payments tx = some q →
          (payment_webhook db (some tx) s d now).payments =
            updateFirstPayment db.payments tx (webhookApply s d now))
    ∧ (∀ (ps : List PaymentRow) (tx : String) (f : PaymentRow → PaymentRow) (p : PaymentRow),
        p ∈ updateFirstPayment ps tx f →
          p ∈ ps ∨ ∃ q, q ∈ ps ∧ q.external_transaction_id = some tx ∧ p = f q) := by
  refine ⟨?_, ?_, ?_, ?_, ?_, ?_⟩
  · intro db cid ph amt cur pt gw
    unfold mobile_checkout
    split_ifs with h1 h2
    · exact Or.inl rfl
    · refine Or.inr ?_
      cases gw with
      | none => exact ⟨_, rfl, rfl⟩
      | some tid => exact ⟨_, rfl, rfl⟩
    · exact Or.inl rfl
  · intro db s d now
    rfl
  · intro db tx s d now h
    simp [payment_webhook, h]
  · intro s d now p
    refine ⟨fun h => ?_, fun h => ?_⟩ <;> simp [webhookApply, h]
  · intro db tx s d now q h
    simp [payment_webhook, h]
  · intro ps tx f p
    induction ps with
    | nil => simp [updateFirstPayment]
    | cons p0 rest ih =>
      unfold updateFirstPayment
      split
      · next hmatch =>
        intro hp
        rcases List.mem_cons.mp hp with hEq | hMem
        · exact Or.inr ⟨p0, List.mem_cons_self _ _, by simpa using hmatch, hEq⟩
        · exact Or.inl (List.mem_cons_of_mem _ hMem)
      · intro hp
        rcases List.mem_cons.mp hp with hEq | hMem
        · exact Or.inl (hEq ▸ List.mem_cons_self _ _)
        · rcases ih hMem with hIn | ⟨q, hqIn, hqTx, hpq⟩
          · exact Or.inl (List.mem_cons_of_mem _ hIn)
          · exact Or.inr ⟨q, List.mem_cons_of_mem _ hqIn, hqTx, hpq⟩

/-- Witness for C7 at a concrete empty payment table (webhook no-op clause). -/
theorem payment_lifecycle_via_webhook_only_witness :
    findPayment (⟨["AG-1"], [], 0⟩ : PayDB).payments "TX9" = none
    ∧ payment_webhook ⟨["AG-1"], [], 0⟩ (some "TX9") "Success" none 5 = ⟨["AG-1"], [], 0⟩ :=
  ⟨rfl, payment_lifecycle_via_webhook_only.2.2.1 ⟨["AG-1"], [], 0⟩ "TX9" "Success" none 5 rfl⟩

/-! ## Supporting lemmas: lengths and byte bounds of the crypto primitives -/

theorem sha256Round_length (s : List Nat) (kw : Nat × Nat) :
    (sha256Round s kw).length = s.length := by
  unfold sha256Round
  split <;> simp_all

theorem foldl_sha256Round_length (l : List (Nat × Nat)) (h : List Nat) :
    (l.foldl sha256Round h).length = h.length := by
  induction l generalizing h with
  | nil => rfl
  | cons kw rest ih => rw [List.foldl_cons, ih, sha256Round_length]

theorem sha256Compress_length (h b : List Nat) :
    (sha256Compress h b).length = h.length := by
  unfold sha256Compress
  rw [List.length_map, List.length_zip, foldl_sha256Round_length]
  omega

theorem foldl_sha256Compress_length (blocks : List (List Nat)) (h : List Nat) :
    (blocks.foldl sha256Compress h).length = h.length := by
  induction blocks generalizing h with
  | nil => rfl
  | cons b rest ih => rw [List.foldl_cons, ih, sha256Compress_length]

theorem flatten_map_word32be_length (l : List Nat) :
    ((l.map word32be).flatten).length = 4 * l.length := by
  induction l with
  | nil => rfl
  | cons w rest ih => simp [word32be, ih]; omega

theorem sha256Bytes_length (msg : List Nat) : (sha256Bytes msg).length = 32 := by
  unfold sha256Bytes
  rw [flatten_map_word32be_length, foldl_sha256Compress_length]
  rfl

theorem hmacSha256_length (key msg : List Nat) : (hmacSha256 key msg).length = 32 :=
  sha256Bytes_length _

theorem xorBytes_length (a b : List Nat) :
    (xorBytes a b).length = min a.length b.length := by
  simp [xorBytes]

theorem pbkdf2Iter_length (pw : List Nat) (n : Nat) (u acc : List Nat)
    (hacc : acc.length = 32) : (pbkdf2Iter pw n u acc).length = 32 := by
  induction n generalizing u acc with
  | zero => exact hacc
  | succ m ih =>
    unfold pbkdf2Iter
    exact ih _ _ (by rw [xorBytes_length, hacc, hmacSha256_length]; simp)

theorem pbkdf2Block_length (pw salt : List Nat) (iterations blockIdx : Nat) :
    (pbkdf2Block pw salt iterations blockIdx).length = 32 := by
  unfold pbkdf2Block
  exact pbkdf2Iter_length _ _ _ _ (hmacSha256_length _ _)

theorem pbkdf2_dklen32_eq (pw salt : List Nat) (iterations : Nat) :
    pbkdf2HmacSha256 pw salt iterations 32 = pbkdf2Block pw salt iterations 1 := by
  unfold pbkdf2HmacSha256
  have h1 : (32 + 31) / 32 = 1 := by norm_num
  have h2 : List.range 1 = [0] := rfl
  rw [h1, h2, List.map_cons, List.map_nil, List.flatten_cons, List.flatten_nil,
    List.append_nil, Nat.zero_add]
  exact List.take_of_length_le (le_of_eq (pbkdf2Block_length pw salt iterations 1))

theorem pbkdf2_dklen32_length (pw salt : List Nat) (iterations : Nat) :
    (pbkdf2HmacSha256 pw salt iterations 32).length = 32 := by
  rw [pbkdf2_dklen32_eq]
  exact pbkdf2Block_length _ _ _ _

theorem word32be_bound (w : Nat) : ∀ b ∈ word32be w, b < 256 := by
  simp [word32be]
  omega

theorem sha256Bytes_bound (msg : List Nat) : ∀ b ∈ sha256Bytes msg, b < 256 := by
  intro b hb
  unfold sha256Bytes at hb
  rcases List.mem_flatten.mp hb with ⟨l, hl, hbl⟩
  rcases List.mem_map.mp hl with ⟨w, _, rfl⟩
  exact word32be_bound w b hbl

theorem hmacSha256_bound (key msg : List Nat) : ∀ b ∈ hmacSha256 key msg, b < 256 :=
  sha256Bytes_bound _

theorem xorBytes_bound (a b : List Nat) (ha : ∀ x ∈ a, x < 256) (hb : ∀ x ∈ b, x < 256) :
    ∀ x ∈ xorBytes a b, x < 256 := by
  intro x hx
  unfold xorBytes at hx
  rcases List.mem_map.mp hx with ⟨p, hp, rfl⟩
  rcases List.of_mem_zip hp with ⟨h1, h2⟩
  have h256 : (256 : Nat) = 2 ^ 8 := by norm_num
  rw [h256]
  exact Nat.xor_lt_two_pow (h256 ▸ ha _ h1) (h256 ▸ hb _ h2)

theorem pbkdf2Iter_bound (pw : List Nat) (n : Nat) (u acc : List Nat)
    (hacc : ∀ b ∈ acc, b < 256) : ∀ b ∈ pbkdf2Iter pw n u acc, b < 256 := by
  induction n generalizing u acc with
  | zero => exact hacc
  | succ m ih =>
    unfold pbkdf2Iter
    exact ih _ _ (xorBytes_bound _ _ hacc (hmacSha256_bound _ _))

theorem pbkdf2_dklen32_bound (pw salt : List Nat) (iterations : Nat) :
    ∀ b ∈ pbkdf2HmacSha256 pw salt iterations 32, b < 256 := by
  rw [pbkdf2_dklen32_eq]
  unfold pbkdf2Block
  exact pbkdf2Iter_bound _ _ _ _ (hmacSha256_bound _ _)

theorem char_toNat_lt (c : Char) : c.toNat < 1114112 := by
  rcases c.valid with h | ⟨h1, h2⟩ <;> (show c.val.toNat < 1114112; omega)

theorem utf8EncodeCp_bound (c : Nat) (hc : c < 1114112) :
    ∀ b ∈ utf8EncodeCp c, b < 256 := by
  unfold utf8EncodeCp
  split_ifs with h1 h2 h3 <;> (intro b hb; simp at hb) <;> omega

theorem strBytes_bound (s : String) : ∀ b ∈ strBytes s, b < 256 := by
  intro b hb
  unfold strBytes at hb
  rcases List.mem_flatMap.mp hb with ⟨c, _, hbc⟩
  exact utf8EncodeCp_bound c.toNat (char_toNat_lt c) b hbc

theorem mem_keyRepeated {b : Nat} {n m : Nat} {k : List Nat}
    (hb : b ∈ (((List.replicate m k).flatten).take n)) : b ∈ k := by
  have hb2 := (List.take_sublist n _).subset hb
  rcases List.mem_flatten.mp hb2 with ⟨l, hl, hbl⟩
  rw [List.eq_of_mem_replicate hl] at hbl
  exact hbl

theorem xorEncrypt_bound (d k : List Nat) (hd : ∀ b ∈ d, b < 256)
    (hk : ∀ b ∈ k, b < 256) : ∀ b ∈ xorEncrypt d k, b < 256 := by
  intro b hb
  unfold xorEncrypt at hb
  rcases List.mem_map.mp hb with ⟨p, hp, rfl⟩
  rcases List.of_mem_zip hp with ⟨h1, h2⟩
  have h256 : (256 : Nat) = 2 ^ 8 := by norm_num
  rw [h256]
  exact Nat.xor_lt_two_pow (h256 ▸ hd _ h1) (h256 ▸ hk _ (mem_keyRepeated h2))

/-! ## Supporting lemmas: base64 round trip -/

theorem b64Val_b64Char : ∀ n, n < 64 → b64Val (b64Char n) = some n := by decide

theorem b64Char_ne_pad : ∀ n, n < 64 → b64Char n ≠ '=' := by decide

theorem b64enc_ne_nil {bs : List Nat} (h : bs ≠ []) : (b64enc bs).isEmpty = false := by
  match bs with
  | [] => exact absurd rfl h
  | [a] => rfl
  | [a, b] => rfl
  | a :: b :: c :: rest => rfl

theorem b64_roundtrip : ∀ (fuel : Nat) (bs : List Nat), bs.length ≤ fuel →
    (∀ b ∈ bs, b < 256) → b64dec (b64enc bs) = some bs := by
  intro fuel
  induction fuel with
  | zero =>
    intro bs hlen _
    have : bs = [] := List.eq_nil_of_length_eq_zero (by omega)
    subst this
    rfl
  | succ n ih =>
    intro bs hlen hb
    match bs with
    | [] => rfl
    | [a] =>
      have ha : a < 256 := hb a (by simp)
      show b64dec [b64Char (a / 4), b64Char (a % 4 * 16), '=', '='] = some [a]
      rw [b64dec]
      rw [b64Val_b64Char _ (by omega), b64Val_b64Char _ (by omega)]
      simp only [List.isEmpty_nil, if_true, if_pos rfl]
      have hval : a / 4 * 4 + a % 4 * 16 / 16 = a := by omega
      rw [hval]
    | [a, b] =>
      have ha : a < 256 := hb a (by simp)
      have hbb : b < 256 := hb b (by simp)
      show b64dec [b64Char (a / 4), b64Char (a % 4 * 16 + b / 16),
        b64Char (b % 16 * 4), '='] = some [a, b]
      rw [b64dec]
      rw [b64Val_b64Char _ (by omega), b64Val_b64Char _ (by omega)]
      dsimp only
      rw [if_neg (b64Char_ne_pad _ (by omega)), b64Val_b64Char _ (by omega)]
      dsimp only
      rw [if_pos rfl]
      have hv1 : a / 4 * 4 + (a % 4 * 16 + b / 16) / 16 = a := by omega
      have hv2 : (a % 4 * 16 + b / 16) % 16 * 16 + b % 16 * 4 / 4 = b := by omega
      rw [hv1, hv2]
      rfl
    | a :: b :: c :: rest =>
      have ha : a < 256 := hb a (by simp)
      have hbb : b < 256 := hb b (by simp)
      have hc : c < 256 := hb c (by simp)
      show b64dec (b64Char (a / 4) :: b64Char (a % 4 * 16 + b / 16) ::
        b64Char (b % 16 * 4 + c / 64) :: b64Char (c % 64) :: b64enc rest) = _
      rw [b64dec]
      rw [b64Val_b64Char _ (by omega), b64Val_b64Char _ (by omega)]
      dsimp only
      rcases hrest : rest with _ | ⟨r, rr⟩
      · show (if (b64enc []).isEmpty = true then _ else _) = _
        dsimp only [b64enc]
        rw [if_neg (b64Char_ne_pad _ (by omega)), b64Val_b64Char _ (by omega)]
        dsimp only
        rw [if_neg (b64Char_ne_pad _ (by omega)), b64Val_b64Char _ (by omega)]
        dsimp only
        have hv1 : a / 4 * 4 + (a % 4 * 16 + b / 16) / 16 = a := by omega
        have hv2 : (a % 4 * 16 + b / 16) % 16 * 16 + (b % 16 * 4 + c / 64) / 4 = b := by omega
        have hv3 : (b % 16 * 4 + c / 64) % 4 * 64 + c % 64 = c := by omega
        rw [hv1, hv2, hv3]
        rfl
      · rw [← hrest]
        have hne : rest ≠ [] := by rw [hrest]; simp
        rw [b64enc_ne_nil hne]
        rw [b64Val_b64Char _ (by omega), b64Val_b64Char _ (by omega)]
        have hih : b64dec (b64enc rest) = some rest := by
          apply ih rest (by simp at hlen; omega)
          intro x hx
          exact hb x (by simp [hx])
        rw [hih]
        have hv1 : a / 4 * 4 + (a % 4 * 16 + b / 16) / 16 = a := by omega
        have hv2 : (a % 4 * 16 + b / 16) % 16 * 16 + (b % 16 * 4 + c / 64) / 4 = b := by omega
        have hv3 : (b % 16 * 4 + c / 64) % 4 * 64 + c % 64 = c := by omega
        rw [hv1]
        dsimp only
        rw [hv2, hv3]
        rfl

/-! ## Supporting lemmas: UTF-8 round trip -/

theorem utf8Decode1_encode (c : Nat) (hc : c < 1114112) (rest : List Nat) :
    utf8Decode1 (utf8EncodeCp c ++ rest) = some (c, rest) := by
  unfold utf8EncodeCp
  split_ifs with h1 h2 h3
  · show utf8Decode1 (c :: rest) = some (c, rest)
    unfold utf8Decode1
    dsimp only
    rw [if_pos h1]
  · show utf8Decode1 ((192 + c / 64) :: (128 + c % 64) :: rest) = some (c, rest)
    simp only [utf8Decode1]
    have hb1 : ¬(192 + c / 64 < 128) := by omega
    have hb2 : ¬(192 + c / 64 < 192) := by omega
    have hb3 : 192 + c / 64 < 224 := by omega
    rw [if_neg hb1, if_neg hb2, if_pos hb3, if_pos (by omega)]
    have hv : (192 + c / 64 - 192) * 64 + (128 + c % 64 - 128) = c := by omega
    rw [hv]
  · show utf8Decode1 ((224 + c / 4096) :: (128 + c / 64 % 64) :: (128 + c % 64) :: rest) =
      some (c, rest)
    simp only [utf8Decode1]
    have hb1 : ¬(224 + c / 4096 < 128) := by omega
    have hb2 : ¬(224 + c / 4096 < 192) := by omega
    have hb3 : ¬(224 + c / 4096 < 224) := by omega
    have hb4 : 224 + c / 4096 < 240 := by omega
    rw [if_neg hb1, if_neg hb2, if_neg hb3, if_pos hb4, if_pos (by omega)]
    have hv : (224 + c / 4096 - 224) * 4096 + (128 + c / 64 % 64 - 128) * 64 +
        (128 + c % 64 - 128) = c := by omega
    rw [hv]
  · show utf8Decode1 ((240 + c / 262144) :: (128 + c / 4096 % 64) :: (128 + c / 64 % 64) ::
      (128 + c % 64) :: rest) = some (c, rest)
    simp only [utf8Decode1]
    have hb1 : ¬(240 + c / 262144 < 128) := by omega
    have hb2 : ¬(240 + c / 262144 < 192) := by omega
    have hb3 : ¬(240 + c / 262144 < 224) := by omega
    have hb4 : ¬(240 + c / 262144 < 240) := by omega
    have hb5 : 240 + c / 262144 < 248 := by omega
    rw [if_neg hb1, if_neg hb2, if_neg hb3, if_neg hb4, if_pos hb5, if_pos (by omega)]
    have hv : (240 + c / 262144 - 240) * 262144 + (128 + c / 4096 % 64 - 128) * 4096 +
        (128 + c / 64 % 64 - 128) * 64 + (128 + c % 64 - 128) = c := by omega
    rw [hv]

theorem utf8EncodeCp_length_pos (c : Nat) : 0 < (utf8EncodeCp c).length := by
  unfold utf8EncodeCp
  split_ifs <;> simp

theorem utf8DecodeAux_succ_cons (n : Nat) (bs : List Nat) (h : bs ≠ []) :
    utf8DecodeAux (n + 1) bs =
      match utf8Decode1 bs with
      | none => none
      | some (c, rest) => (utf8DecodeAux n rest).map (c :: ·) := by
  cases bs with
  | nil => exact absurd rfl h
  | cons b bt => rfl

theorem utf8DecodeAux_encode (cps : List Nat) :
    ∀ (fuel : Nat), (∀ c ∈ cps, c < 1114112) →
      (cps.flatMap utf8EncodeCp).length ≤ fuel →
      utf8DecodeAux fuel (cps.flatMap utf8EncodeCp) = some cps := by
  induction cps with
  | nil =>
    intro fuel _ _
    cases fuel <;> rfl
  | cons c cps ih =>
    intro fuel hval hlen
    have hc : c < 1114112 := hval c (by simp)
    have hpos := utf8EncodeCp_length_pos c
    have hflat : (c :: cps).flatMap utf8EncodeCp =
        utf8EncodeCp c ++ cps.flatMap utf8EncodeCp := by
      simp [List.flatMap]
    rw [hflat] at hlen ⊢
    cases fuel with
    | zero =>
      exfalso
      rw [List.length_append] at hlen
      omega
    | succ n =>
      have hdec := utf8Decode1_encode c hc (cps.flatMap utf8EncodeCp)
      have hne : utf8EncodeCp c ++ cps.flatMap utf8EncodeCp ≠ [] := by
        intro hnil
        have hlen0 := congrArg List.length hnil
        rw [List.length_append, List.length_nil] at hlen0
        omega
      have hlen2 : (cps.flatMap utf8EncodeCp).length ≤ n := by
        rw [List.length_append] at hlen
        omega
      rw [utf8DecodeAux_succ_cons n _ hne, hdec]
      dsimp only
      rw [ih n (fun x hx => hval x (by simp [hx])) hlen2]
      rfl

theorem utf8Decode_encode (cps : List Nat) (h : ∀ c ∈ cps, c < 1114112) :
    utf8Decode (cps.flatMap utf8EncodeCp) = some cps :=
  utf8DecodeAux_encode cps _ h le_rfl

theorem strBytes_eq_flatMap (s : String) :
    strBytes s = (s.data.map Char.toNat).flatMap utf8EncodeCp := by
  show (s.data.map fun c => utf8EncodeCp c.toNat).flatten =
    ((s.data.map Char.toNat).map utf8EncodeCp).flatten
  rw [List.map_map]
  rfl

theorem map_ofNat_toNat (l : List Char) : l.map (fun c => Char.ofNat c.toNat) = l := by
  induction l with
  | nil => rfl
  | cons c rest ih => simp [ih, Char.ofNat_toNat]

theorem utf8DecodeStr_strBytes (s : String) : utf8DecodeStr (strBytes s) = some s := by
  unfold utf8DecodeStr
  rw [strBytes_eq_flatMap,
    utf8Decode_encode _ (by
      intro c hcm
      rcases List.mem_map.mp hcm with ⟨ch, _, rfl⟩
      exact char_toNat_lt ch)]
  show some (String.mk (((s.data.map Char.toNat).map Char.ofNat))) = some s
  rw [List.map_map]
  rw [show ((Char.ofNat ∘ Char.toNat) : Char → Char) = fun c => Char.ofNat c.toNat from rfl]
  rw [map_ofNat_toNat]

/-! ## Supporting lemmas: xor keystream involution -/

theorem flatten_replicate_length (m : Nat) (k : List Nat) :
    ((List.replicate m k).flatten).length = m * k.length := by
  induction m with
  | zero => simp
  | succ i ih =>
    rw [List.replicate_succ, List.flatten_cons, List.length_append, ih]
    ring

theorem keyRep_length (n : Nat) (k : List Nat) (hk : k.length ≠ 0) :
    (((List.replicate (n / k.length + 1) k).flatten).take n).length = n := by
  rw [List.length_take, flatten_replicate_length]
  have h1 : k.length * (n / k.length) + n % k.length = n := Nat.div_add_mod n k.length
  have h2 : n % k.length < k.length := Nat.mod_lt _ (Nat.pos_of_ne_zero hk)
  have h3 : (n / k.length + 1) * k.length = k.length * (n / k.length) + k.length := by ring
  omega

theorem xorEncrypt_length (d k : List Nat) (hk : k.length ≠ 0) :
    (xorEncrypt d k).length = d.length := by
  unfold xorEncrypt
  rw [List.length_map, List.length_zip, keyRep_length _ _ hk]
  omega

theorem xorZip_cancel (d : List Nat) : ∀ kr : List Nat,
    ((((d.zip kr).map fun p => Nat.xor p.1 p.2).zip kr).map fun p => Nat.xor p.1 p.2) =
      (d.zip kr).map Prod.fst := by
  induction d with
  | nil => intro kr; rfl
  | cons a d ih =>
    intro kr
    cases kr with
    | nil => rfl
    | cons b kr =>
      have hxc : ∀ x y : Nat, Nat.xor (Nat.xor x y) y = x := fun x y =>
        Nat.xor_cancel_right y x
      simp only [List.zip_cons_cons, List.map_cons]
      rw [show (Nat.xor (Nat.xor a b) b) = a from hxc a b, ih]

theorem xorEncrypt_involution (d k : List Nat) (hk : k.length ≠ 0) :
    xorEncrypt (xorEncrypt d k) k = d := by
  have hlen : (xorEncrypt d k).length = d.length := xorEncrypt_length d k hk
  conv_lhs =>
    rw [show xorEncrypt (xorEncrypt d k) k =
      ((xorEncrypt d k).zip
        (((List.replicate ((xorEncrypt d k).length / k.length + 1) k).flatten).take
          (xorEncrypt d k).length)).map (fun p => Nat.xor p.1 p.2) from rfl]
    rw [hlen]
  rw [show xorEncrypt d k =
    (d.zip (((List.replicate (d.length / k.length + 1) k).flatten).take d.length)).map
      (fun p => Nat.xor p.1 p.2) from rfl]
  rw [xorZip_cancel]
  exact List.map_fst_zip d _ (by rw [keyRep_length _ _ hk])

/-! ## C10: the encrypt/decrypt round trip -/

/-- C10: `decrypt_sensitive_data` inverts `encrypt_sensitive_data`: the 16-byte
salt prepended to the xor-encrypted bytes lets decryption re-derive the same
PBKDF2 key from the master key and context, and applying the xor keystream
twice is the identity, so the original string comes back. -/
theorem encrypt_decrypt_roundtrip (masterKey data context : String) (salt : List Nat)
    (hlen : salt.length = 16) (hbound : ∀ b ∈ salt, b < 256) :
    decrypt_sensitive_data masterKey (encrypt_sensitive_data masterKey salt data context)
      context = some data := by
  unfold encrypt_sensitive_data decrypt_sensitive_data
  have hkeylen := pbkdf2_dklen32_length (strBytes (masterKey ++ ":" ++ context)) salt 100000
  have hkeyb := pbkdf2_dklen32_bound (strBytes (masterKey ++ ":" ++ context)) salt 100000
  have hbytes : ∀ b ∈ salt ++ xorEncrypt (strBytes data)
      (pbkdf2HmacSha256 (strBytes (masterKey ++ ":" ++ context)) salt 100000 32), b < 256 := by
    intro b hb
    rcases List.mem_append.mp hb with h | h
    · exact hbound b h
    · exact xorEncrypt_bound _ _ (strBytes_bound data) hkeyb b h
  show (match b64dec (String.mk (b64enc (salt ++ xorEncrypt (strBytes data)
      (pbkdf2HmacSha256 (strBytes (masterKey ++ ":" ++ context)) salt 100000 32)))).data with
    | none => none
    | some combined => _) = some data
  rw [show (String.mk (b64enc (salt ++ xorEncrypt (strBytes data)
      (pbkdf2HmacSha256 (strBytes (masterKey ++ ":" ++ context)) salt 100000 32)))).data =
    b64enc (salt ++ xorEncrypt (strBytes data)
      (pbkdf2HmacSha256 (strBytes (masterKey ++ ":" ++ context)) salt 100000 32)) from rfl]
  rw [b64_roundtrip _ _ le_rfl hbytes]
  dsimp only
  rw [List.take_left' hlen, List.drop_left' hlen]
  rw [xorEncrypt_involution _ _ (by rw [hkeylen]; omega)]
  exact utf8DecodeStr_strBytes data

/-- Witness for C10 at a concrete salt, master key, data and context. -/
theorem encrypt_decrypt_roundtrip_witness :
    (List.range 16).length = 16
    ∧ (∀ b ∈ List.range 16, b < 256)
    ∧ decrypt_sensitive_data "master-key"
        (encrypt_sensitive_data "master-key" (List.range 16) "hello wörld" "phone:+254711000001")
        "phone:+254711000001" = some "hello wörld" :=
  ⟨by decide, by decide,
   encrypt_decrypt_roundtrip "master-key" "hello wörld" "phone:+254711000001"
     (List.range 16) (by decide) (by decide)⟩

end VoicePact
